import Mathlib

/-!
Verification of the conductor repository's specification against a shallow
embedding of its Rust sources.

The embedding covers:
* the agent event normalizer (`src/conductor/agent/src/lib.rs`): a
  stateful parser turning Codex / Claude vendor JSON events into a
  uniform event stream;
* the workspace store helpers (`src/conductor/core/src/lib.rs`):
  directory-name sanitization, safe relative paths, repository and
  workspace reference resolution, repository registration, file
  content / diff access and workspace archival.

JSON values (`serde_json::Value`) are modelled by the inductive `Json`
below, with objects as association lists; numbers are restricted to
integers, which covers every number the modelled code constructs or
inspects.  Effectful operations (filesystem reads, git invocations,
database writes) are modelled by oracle arguments plus an explicit trace
of `Effect`s recorded exactly where the Rust code performs the call.
-/

/-- Model of `serde_json::Value`.  Objects are association lists of
fields; the modelled code only ever reads fields by key and compares
values structurally, so the list order is immaterial to the theorems. -/
inductive Json where
  | null : Json
  | bool : Bool → Json
  | num : Int → Json
  | str : String → Json
  | arr : List Json → Json
  | obj : List (String × Json) → Json

/-- Field lookup on an object, `Value::get` in serde_json. -/
def Json.get? : Json → String → Option Json
  | .obj fields, key => (fields.find? (fun kv => kv.1 == key)).map (·.2)
  | _, _ => none

/-- `Value::as_str`. -/
def Json.asStr? : Json → Option String
  | .str s => some s
  | _ => none

/-- `Value::as_bool`. -/
def Json.asBool? : Json → Option Bool
  | .bool b => some b
  | _ => none

/-- `Value::as_i64` (numbers are modelled as integers). -/
def Json.asInt? : Json → Option Int
  | .num n => some n
  | _ => none

/-- `Value::as_array`. -/
def Json.asArr? : Json → Option (List Json)
  | .arr items => some items
  | _ => none

/-- `Value::as_object`, returning the field list. -/
def Json.asObj? : Json → Option (List (String × Json))
  | .obj fields => some fields
  | _ => none

/-- `Value::is_null`. -/
def Json.isNull : Json → Bool
  | .null => true
  | _ => false

/-- Lookup in a field list (`serde_json::Map::get`). -/
def lookupKey (m : List (String × Json)) (key : String) : Option Json :=
  (m.find? (fun kv => kv.1 == key)).map (·.2)

/-- Insert into a field list (`serde_json::Map::insert`): replace the
value when the key is present, append otherwise. -/
def jinsert (m : List (String × Json)) (k : String) (v : Json) : List (String × Json) :=
  if m.any (fun kv => kv.1 == k) then
    m.map (fun kv => if kv.1 == k then (k, v) else kv)
  else
    m ++ [(k, v)]

/-- `value.get(key).and_then(Value::as_str)` — the source's `value_str`. -/
def value_str (value : Json) (key : String) : Option String :=
  (value.get? key).bind Json.asStr?

/-- Rendering of a scalar JSON value, as `serde_json` `Display` would
print it: used by `claude_result_preview` in its fallback arm, which is
only ever reached on `null`, booleans and numbers. -/
def Json.renderScalar : Json → String
  | .null => "null"
  | .bool true => "true"
  | .bool false => "false"
  | .num n => toString n
  | .str s => s
  | .arr _ => ""
  | .obj _ => ""

/-! ### Uniform event constructors (agent/src/lib.rs lines 43-97) -/

/-- `agent_event`: stamp `type = "agent.<kind>"` and `engine` onto a payload. -/
def agent_event (engine : String) (kind : String) (payload : List (String × Json)) : Json :=
  .obj (jinsert (jinsert payload "type" (.str ("agent." ++ kind))) "engine" (.str engine))

/-- `action_event`. -/
def action_event (engine phase : String) (action : Json) (ok : Option Bool)
    (message level : Option String) : Json :=
  let payload := jinsert (jinsert [] "phase" (.str phase)) "action" action
  let payload := match ok with
    | some b => jinsert payload "ok" (.bool b)
    | none => payload
  let payload := match message with
    | some m => jinsert payload "message" (.str m)
    | none => payload
  let payload := match level with
    | some l => jinsert payload "level" (.str l)
    | none => payload
  agent_event engine "action" payload

/-- `started_event`. -/
def started_event (engine resume : String) (title : Option String) (meta : Option Json) : Json :=
  let payload := jinsert [] "resume" (.str resume)
  let payload := match title with
    | some t => jinsert payload "title" (.str t)
    | none => payload
  let payload := match meta with
    | some m => jinsert payload "meta" m
    | none => payload
  agent_event engine "started" payload

/-- `message_event`. -/
def message_event (engine text : String) : Json :=
  agent_event engine "message" (jinsert [] "text" (.str text))

/-- `completed_event`. -/
def completed_event (engine : String) (ok : Bool) (answer : String)
    (resume error : Option String) (usage : Option Json) : Json :=
  let payload := jinsert (jinsert [] "ok" (.bool ok)) "answer" (.str answer)
  let payload := match resume with
    | some r => jinsert payload "resume" (.str r)
    | none => payload
  let payload := match error with
    | some e => jinsert payload "error" (.str e)
    | none => payload
  let payload := match usage with
    | some u => jinsert payload "usage" u
    | none => payload
  agent_event engine "completed" payload

/-- `action_map`: the `{id, kind, title, detail}` record of an action. -/
def action_map (id kind title : String) (detail : List (String × Json)) : Json :=
  .obj (jinsert (jinsert (jinsert (jinsert [] "id" (.str id)) "kind" (.str kind))
    "title" (.str title)) "detail" (.obj detail))

/-! ### Codex parser state and dispatch (agent/src/lib.rs lines 4-10, 103-405) -/

/-- `CodexState`. -/
structure CodexState where
  resume : Option String := none
  answer : Option String := none
  turn_index : Nat := 0
  note_seq : Nat := 0

/-- `codex_mcp_result_summary`. -/
def codex_mcp_result_summary (result : Option Json) : Option Json :=
  match result with
  | none => none
  | some r =>
    match r.asObj? with
    | none => none
    | some obj =>
      let summary : List (String × Json) := []
      let summary := match lookupKey obj "content" with
        | some (.arr list) => jinsert summary "content_blocks" (.num list.length)
        | some _ => jinsert summary "content_blocks" (.num 1)
        | none => summary
      let summary :=
        if (lookupKey obj "structured_content").isSome then
          let has := !((lookupKey obj "structured_content").map Json.isNull |>.getD false)
          jinsert summary "has_structured" (.bool has)
        else if (lookupKey obj "structured").isSome then
          let has := !((lookupKey obj "structured").map Json.isNull |>.getD false)
          jinsert summary "has_structured" (.bool has)
        else summary
      if summary.isEmpty then none else some (.obj summary)

/-- `codex_change_summary`: title plus normalized `changes[]`. -/
def codex_change_summary (changes : Option Json) : String × Json :=
  match changes.bind Json.asArr? with
  | none => ("files", .arr [])
  | some list =>
    let pairs := list.filterMap (fun change =>
      match change.asObj? with
      | some obj =>
        match (lookupKey obj "path").bind Json.asStr? with
        | some path =>
          let entry := jinsert [] "path" (.str path)
          let entry := match (lookupKey obj "kind").bind Json.asStr? with
            | some kind => jinsert entry "kind" (.str kind)
            | none => entry
          some (path, Json.obj entry)
        | none => none
      | none => none)
    let paths := pairs.map (·.1)
    let normalized := pairs.map (·.2)
    let title :=
      if paths.isEmpty then
        if list.length = 0 then "files" else toString list.length ++ " files"
      else
        String.intercalate ", " paths
    (title, .arr normalized)

/-- The loop of `codex_todo_summary`: `(done, total, next_text)` counters. -/
def codex_todo_loop : List Json → Nat → Nat → Option String → Nat × Nat × Option String
  | [], done, total, next => (done, total, next)
  | it :: rest, done, total, next =>
    match it.asObj? with
    | none => codex_todo_loop rest done total next
    | some obj =>
      if (lookupKey obj "completed").bind Json.asBool? = some true then
        codex_todo_loop rest (done + 1) (total + 1) next
      else
        let next := if next.isNone then (lookupKey obj "text").bind Json.asStr? else next
        codex_todo_loop rest done (total + 1) next

/-- `codex_todo_summary`. -/
def codex_todo_summary (items : Option Json) : Nat × Nat × Option String :=
  match items.bind Json.asArr? with
  | none => (0, 0, none)
  | some list => codex_todo_loop list 0 0 none

/-- `codex_item_events`: the per-item sub-dispatch of the Codex parser. -/
def codex_item_events (phase : String) (item : Json) (state : CodexState) :
    List Json × CodexState :=
  let item_type := (value_str item "type").getD ""
  if item_type = "agent_message" then
    match value_str item "text" with
    | some text => ([message_event "codex" text], { state with answer := some text })
    | none => ([], state)
  else
    match value_str item "id" with
    | none => ([], state)
    | some action_id =>
      if item_type = "command_execution" then
        let command := (value_str item "command").getD "command"
        let status := value_str item "status"
        let exit_code := item.get? "exit_code"
        let detail : List (String × Json) := []
        let detail := match status with
          | some s => jinsert detail "status" (.str s)
          | none => detail
        let detail := match exit_code with
          | some c => jinsert detail "exit_code" c
          | none => detail
        let action := action_map action_id "command" command detail
        let ok :=
          if phase = "completed" then
            let okBase := status = some "completed"
            some (match exit_code.bind Json.asInt? with
              | some code => okBase && code = 0
              | none => okBase)
          else none
        ([action_event "codex" phase action ok none none], state)
      else if item_type = "mcp_tool_call" then
        let server := value_str item "server"
        let tool := value_str item "tool"
        let status := value_str item "status"
        let title0 := server.getD ""
        let title1 := match tool with
          | some tl => if title0 = "" then tl else title0 ++ "." ++ tl
          | none => title0
        let title := if title1 = "" then "tool" else title1
        let detail : List (String × Json) := []
        let detail := match server with
          | some s => jinsert detail "server" (.str s)
          | none => detail
        let detail := match tool with
          | some t => jinsert detail "tool" (.str t)
          | none => detail
        let detail := match status with
          | some s => jinsert detail "status" (.str s)
          | none => detail
        let detail := match item.get? "arguments" with
          | some args => jinsert detail "arguments" args
          | none => detail
        let errVal := item.get? "error"
        let detail :=
          if phase = "completed" then
            let detail := match errVal.bind (fun e => (e.get? "message").bind Json.asStr?) with
              | some m => jinsert detail "error_message" (.str m)
              | none => detail
            match codex_mcp_result_summary (item.get? "result") with
            | some s => jinsert detail "result_summary" s
            | none => detail
          else detail
        let ok :=
          if phase = "completed" then some (status = some "completed" && errVal.isNone)
          else none
        let action := action_map action_id "tool" title detail
        ([action_event "codex" phase action ok none none], state)
      else if item_type = "web_search" then
        let query := (value_str item "query").getD "search"
        let detail := jinsert [] "query" (.str query)
        let action := action_map action_id "web_search" query detail
        let ok := if phase = "completed" then some true else none
        ([action_event "codex" phase action ok none none], state)
      else if item_type = "file_change" then
        if phase ≠ "completed" then ([], state)
        else
          let tc := codex_change_summary (item.get? "changes")
          let title := tc.1
          let detail := jinsert [] "changes" tc.2
          let detail := match value_str item "status" with
            | some s => jinsert detail "status" (.str s)
            | none => detail
          let ok := value_str item "status" = some "completed"
          let action := action_map action_id "file_change" title detail
          ([action_event "codex" "completed" action (some ok) none none], state)
      else if item_type = "todo_list" then
        let dt := codex_todo_summary (item.get? "items")
        let done := dt.1
        let total := dt.2.1
        let next_text := dt.2.2
        let title :=
          if total = 0 then "todo"
          else match next_text with
            | some t => "todo " ++ toString done ++ "/" ++ toString total ++ ": " ++ t
            | none => "todo " ++ toString done ++ "/" ++ toString total ++ ": done"
        let detail := jinsert (jinsert [] "done" (.num done)) "total" (.num total)
        let action := action_map action_id "note" title detail
        let ok := if phase = "completed" then some true else none
        ([action_event "codex" phase action ok none none], state)
      else if item_type = "reasoning" then
        let text := (value_str item "text").getD "note"
        let action := action_map action_id "note" text []
        let ok := if phase = "completed" then some true else none
        ([action_event "codex" phase action ok none none], state)
      else if item_type = "error" then
        let msg := (value_str item "message").getD "error"
        let detail := jinsert [] "message" (.str msg)
        let action := action_map action_id "warning" msg detail
        ([action_event "codex" "completed" action (some false) (some msg) (some "warning")], state)
      else
        ([], state)

/-- `parse_codex_event`: the Codex top-level dispatch.  Returns the
optional event list together with the (possibly updated) state; a `none`
result leaves the state unchanged, mirroring the Rust control flow. -/
def parse_codex_event (value : Json) (state : CodexState) : Option (List Json) × CodexState :=
  match value_str value "type" with
  | none => (none, state)
  | some event_type =>
    if event_type = "thread.started" then
      match value_str value "thread_id" with
      | none => (none, state)
      | some thread_id =>
        (some [started_event "codex" thread_id (some "Codex") none],
         { state with resume := some thread_id })
    else if event_type = "turn.started" then
      let action_id := "turn:" ++ toString state.turn_index
      let action := action_map action_id "turn" "turn started" []
      (some [action_event "codex" "started" action none none none],
       { state with turn_index := state.turn_index + 1 })
    else if event_type = "turn.completed" then
      let action_id := "turn:" ++ toString (state.turn_index - 1)
      let action := action_map action_id "turn" "turn completed" []
      let usage := value.get? "usage"
      (some [action_event "codex" "completed" action (some true) none none,
             completed_event "codex" true (state.answer.getD "") state.resume none usage],
       state)
    else if event_type = "turn.failed" then
      let error_msg := (value.get? "error").bind (fun e => (e.get? "message").bind Json.asStr?)
      (some [completed_event "codex" false (state.answer.getD "") state.resume error_msg none],
       state)
    else if event_type = "error" then
      match value_str value "message" with
      | some msg =>
        let state := { state with note_seq := state.note_seq + 1 }
        let action_id := "codex.note." ++ toString state.note_seq
        let detail := jinsert [] "message" (.str msg)
        let action := action_map action_id "warning" msg detail
        (some [action_event "codex" "completed" action (some false) (some msg) (some "warning")],
         state)
      | none => (none, state)
    else if event_type = "item.started" ∨ event_type = "item.updated" ∨
        event_type = "item.completed" then
      let phase :=
        if event_type = "item.started" then "started"
        else if event_type = "item.updated" then "updated"
        else "completed"
      match value.get? "item" with
      | none => (none, state)
      | some item =>
        let r := codex_item_events phase item state
        (some r.1, r.2)
    else
      (none, state)

/-! ### Claude parser state and dispatch (agent/src/lib.rs lines 12-17, 407-707) -/

/-- `ClaudeState`.  The pending map (`HashMap<String, Value>` in Rust) is
modelled as an association list with unique keys. -/
structure ClaudeState where
  resume : Option String := none
  pending : List (String × Json) := []
  note_seq : Nat := 0

/-- `HashMap::remove`: the removed value (if any) and the remaining map. -/
def pendingRemove (m : List (String × Json)) (k : String) :
    Option Json × List (String × Json) :=
  ((m.find? (fun kv => kv.1 == k)).map (·.2), m.filter (fun kv => kv.1 != k))

/-- ASCII lowercasing of a character (`char::to_ascii_lowercase`). -/
def toAsciiLower (c : Char) : Char :=
  if 'A' ≤ c ∧ c ≤ 'Z' then Char.ofNat (c.toNat + 32) else c

/-- ASCII lowercasing of a string; used both for `str::to_lowercase` on
the (ASCII) tool names and for `eq_ignore_ascii_case`. -/
def strAsciiLower (s : String) : String := String.mk (s.toList.map toAsciiLower)

/-- `TOOL_KIND_MAP`, with kinds already rendered as strings
(`ToolKind::as_str`). -/
def TOOL_KIND_MAP : List (String × String) :=
  [("bash", "command"), ("shell", "command"),
   ("read", "file_change"), ("edit", "file_change"),
   ("write", "file_change"), ("multiedit", "file_change"),
   ("websearch", "web_search"), ("web_search", "web_search"),
   ("webfetch", "web_search"), ("browser", "web_search"),
   ("task", "subagent"), ("agent", "subagent")]

/-- `tool_kind`: classify a Claude tool name into an action kind. -/
def tool_kind (name : String) : String :=
  let lower := strAsciiLower name
  match TOOL_KIND_MAP.find? (fun kv => kv.1 == lower) with
  | some kv => kv.2
  | none => "tool"

/-- `tool_input_path`: the first non-empty string field among `keys`. -/
def tool_input_path (tool_input : List (String × Json)) (keys : List String) : Option String :=
  match keys with
  | [] => none
  | key :: rest =>
    match (lookupKey tool_input key).bind Json.asStr? with
    | some v => if v ≠ "" then some v else tool_input_path tool_input rest
    | none => tool_input_path tool_input rest

/-- `tool_kind_and_title`. -/
def tool_kind_and_title (name : String) (tool_input : List (String × Json)) :
    String × String :=
  let kind := tool_kind name
  let title :=
    if kind = "command" then
      ((lookupKey tool_input "command").bind Json.asStr?).getD name
    else if kind = "file_change" then
      (tool_input_path tool_input ["file_path", "path"]).getD name
    else if kind = "web_search" then
      (((lookupKey tool_input "query").orElse (fun _ => lookupKey tool_input "url")).bind
        Json.asStr?).getD name
    else if kind = "subagent" then
      (((lookupKey tool_input "title").orElse (fun _ => lookupKey tool_input "name")).bind
        Json.asStr?).getD name
    else name
  (kind, title)

/-- `claude_result_preview`: flatten a `tool_result` content value. -/
def claude_result_preview (content : Option Json) : String :=
  match content with
  | none => ""
  | some (.str text) => text
  | some (.arr items) =>
    String.intercalate "\n" (items.filterMap (fun item =>
      match (item.get? "text").bind Json.asStr? with
      | some text => if text ≠ "" then some text else none
      | none => none))
  | some (.obj fields) =>
    (((Json.obj fields).get? "text").bind Json.asStr?).getD ""
  | some other => other.renderScalar

/-- The counting loop of `parse_claude_todos`:
`(pending, in_progress, completed, current_task)`. -/
def claude_todo_loop : List Json → Nat → Nat → Nat → Option String →
    Nat × Nat × Nat × Option String
  | [], p, ip, c, cur => (p, ip, c, cur)
  | t :: rest, p, ip, c, cur =>
    match t.asObj? with
    | none => claude_todo_loop rest p ip c cur
    | some obj =>
      let status := ((lookupKey obj "status").bind Json.asStr?).getD "pending"
      if status = "completed" then claude_todo_loop rest p ip (c + 1) cur
      else if status = "in_progress" then
        let cur :=
          if cur.isNone then
            (((lookupKey obj "activeForm").orElse (fun _ => lookupKey obj "content")).bind
              Json.asStr?)
          else cur
        claude_todo_loop rest p (ip + 1) c cur
      else claude_todo_loop rest (p + 1) ip c cur

/-- `parse_claude_todos`: summarize a TodoWrite input into a title and a
detail map. -/
def parse_claude_todos (tool_input : List (String × Json)) :
    String × List (String × Json) :=
  match (lookupKey tool_input "todos").bind Json.asArr? with
  | none => ("todo", [])
  | some todos =>
    let q := claude_todo_loop todos 0 0 0 none
    let pending := q.1
    let in_progress := q.2.1
    let completed := q.2.2.1
    let current_task := q.2.2.2
    let total := pending + in_progress + completed
    let title :=
      match current_task with
      | some task => "todo " ++ toString completed ++ "/" ++ toString total ++ ": " ++ task
      | none =>
        if completed = total ∧ total > 0 then
          "todo " ++ toString completed ++ "/" ++ toString total ++ ": done"
        else
          "todo " ++ toString completed ++ "/" ++ toString total
    let detail := jinsert [] "pending" (.num pending)
    let detail := jinsert detail "in_progress" (.num in_progress)
    let detail := jinsert detail "completed" (.num completed)
    let detail := jinsert detail "total" (.num total)
    let detail := jinsert detail "todos" (.arr todos)
    let detail := match current_task with
      | some task => jinsert detail "current_task" (.str task)
      | none => detail
    (title, detail)

/-- First line of a thinking block: `str::lines().next().unwrap_or("thinking")`. -/
def firstLine (s : String) : String :=
  if s = "" then "thinking"
  else
    match s.splitOn "\n" with
    | [] => "thinking"
    | l :: _ => if l.endsWith "\r" then l.dropRight 1 else l

/-- Processing of one Claude `message.content` block: the emitted events,
the accumulated text parts (zero or one), and the updated state.  This is
one iteration of the block loop in `parse_claude_event`. -/
def claude_block (block : Json) (state : ClaudeState) :
    List Json × List String × ClaudeState :=
  let block_type := (value_str block "type").getD ""
  if block_type = "tool_use" then
    match value_str block "id" with
    | none => ([], [], state)
    | some tool_id =>
      let name := (value_str block "name").getD "tool"
      let tool_input := ((block.get? "input").bind Json.asObj?).getD []
      if strAsciiLower name = "todowrite" then
        let td := parse_claude_todos tool_input
        let action := action_map tool_id "todo" td.1 td.2
        ([action_event "claude" "started" action none none none], [],
         { state with pending := jinsert state.pending tool_id action })
      else
        let kt := tool_kind_and_title name tool_input
        let kind := kt.1
        let title := kt.2
        let detail := jinsert [] "name" (.str name)
        let detail := jinsert detail "input" (.obj tool_input)
        let detail :=
          if kind = "file_change" then
            match tool_input_path tool_input ["file_path", "path"] with
            | some path =>
              jinsert detail "changes"
                (.arr [.obj (jinsert (jinsert [] "path" (.str path)) "kind" (.str "update"))])
            | none => detail
          else detail
        let action := action_map tool_id kind title detail
        ([action_event "claude" "started" action none none none], [],
         { state with pending := jinsert state.pending tool_id action })
  else if block_type = "tool_result" then
    match value_str block "tool_use_id" with
    | none => ([], [], state)
    | some tool_use_id =>
      let fp := pendingRemove state.pending tool_use_id
      let pending := fp.2
      let action := fp.1.getD (action_map tool_use_id "tool" "tool" [])
      match action with
      | .obj action_obj =>
        let detail := ((lookupKey action_obj "detail").bind Json.asObj?).getD []
        let preview := claude_result_preview (block.get? "content")
        let detail := jinsert detail "tool_use_id" (.str tool_use_id)
        let detail := jinsert detail "result_preview" (.str preview)
        let detail := jinsert detail "result_len" (.num preview.utf8ByteSize)
        let is_error := (block.get? "is_error").bind Json.asBool? == some true
        let detail := jinsert detail "is_error" (.bool is_error)
        let action := Json.obj (jinsert action_obj "detail" (.obj detail))
        ([action_event "claude" "completed" action (some !is_error) none none], [],
         { state with pending := pending })
      | _ => ([], [], { state with pending := pending })
  else if block_type = "thinking" then
    match value_str block "thinking" with
    | none => ([], [], state)
    | some thinking =>
      let state := { state with note_seq := state.note_seq + 1 }
      let title := firstLine thinking
      let detail := jinsert [] "thinking" (.str thinking)
      let action_id := "claude.note." ++ toString state.note_seq
      let action := action_map action_id "note" title detail
      ([action_event "claude" "completed" action (some true) none none], [], state)
  else if block_type = "text" then
    match value_str block "text" with
    | none => ([], [], state)
    | some text => ([], [text], state)
  else
    ([], [], state)

/-- The block loop of the `assistant` branch: events and text parts
accumulate in block order. -/
def claude_blocks : List Json → ClaudeState → List Json × List String × ClaudeState
  | [], state => ([], [], state)
  | block :: rest, state =>
    let r := claude_block block state
    let rr := claude_blocks rest r.2.2
    (r.1 ++ rr.1, r.2.1 ++ rr.2.1, rr.2.2)

/-- `parse_claude_event`: the Claude top-level dispatch. -/
def parse_claude_event (value : Json) (state : ClaudeState) :
    Option (List Json) × ClaudeState :=
  match value_str value "type" with
  | none => (none, state)
  | some event_type =>
    if event_type = "system" then
      if value_str value "subtype" ≠ some "init" then (some [], state)
      else
        match value_str value "session_id" with
        | none => (none, state)
        | some session_id =>
          let meta := ["cwd", "tools", "permissionMode", "output_style", "model"].foldl
            (fun meta key =>
              match value.get? key with
              | some v => jinsert meta key v
              | none => meta) []
          let metaOpt := if meta.isEmpty then none else some (Json.obj meta)
          let title := value_str value "model"
          (some [started_event "claude" session_id title metaOpt],
           { state with resume := some session_id })
    else if event_type = "assistant" then
      match (value.get? "message").bind Json.asObj? with
      | none => (none, state)
      | some message =>
        match (lookupKey message "content").bind Json.asArr? with
        | none => (none, state)
        | some content =>
          let r := claude_blocks content state
          let events :=
            if r.2.1.isEmpty then r.1
            else r.1 ++ [message_event "claude" (String.intercalate "\n" r.2.1)]
          (some events, r.2.2)
    else if event_type = "result" then
      let ok := (value.get? "is_error").bind Json.asBool? ≠ some true
      let answer := (value_str value "result").getD ""
      let usage := value.get? "usage"
      let error := if ok then none else some answer
      (some [completed_event "claude" ok answer state.resume error usage], state)
    else
      (none, state)

/-! ### The combined parser (agent/src/lib.rs lines 19-41) -/

/-- `AgentParser`. -/
structure AgentParser where
  codex : CodexState := {}
  claude : ClaudeState := {}

/-- `AgentParser::new()`. -/
def AgentParser.new : AgentParser := {}

/-- `AgentParser::parse_value`: try the Codex parser first, then Claude. -/
def parse_value (p : AgentParser) (value : Json) : Option (List Json) × AgentParser :=
  let r := parse_codex_event value p.codex
  match r.1 with
  | some events => (some events, { p with codex := r.2 })
  | none =>
    let c := parse_claude_event value p.claude
    (c.1, { p with codex := r.2, claude := c.2 })

/-- The events one input contributes (`none` contributes nothing). -/
def eventsOf (p : AgentParser) (value : Json) : List Json :=
  ((parse_value p value).1).getD []

/-- Parser state after a sequence of inputs. -/
def runState (p : AgentParser) (inputs : List Json) : AgentParser :=
  inputs.foldl (fun p v => (parse_value p v).2) p

/-- All events emitted over a sequence of inputs, in order. -/
def runEvents (p : AgentParser) : List Json → List Json
  | [] => []
  | v :: rest => eventsOf p v ++ runEvents (parse_value p v).2 rest

/-! ### Workspace store helpers (core/src/lib.rs) -/

/-- Unicode `White_Space` characters: `char::is_whitespace` in Rust. -/
def rustIsWhitespace (c : Char) : Bool :=
  c ∈ ['\t', '\n', '\r', ' ',
    Char.ofNat 0x0B, Char.ofNat 0x0C, Char.ofNat 0x85, Char.ofNat 0xA0,
    Char.ofNat 0x1680, Char.ofNat 0x2000, Char.ofNat 0x2001, Char.ofNat 0x2002,
    Char.ofNat 0x2003, Char.ofNat 0x2004, Char.ofNat 0x2005, Char.ofNat 0x2006,
    Char.ofNat 0x2007, Char.ofNat 0x2008, Char.ofNat 0x2009, Char.ofNat 0x200A,
    Char.ofNat 0x2028, Char.ofNat 0x2029, Char.ofNat 0x202F, Char.ofNat 0x205F,
    Char.ofNat 0x3000]

/-- `str::trim` on a character list. -/
def rustTrimList (cs : List Char) : List Char :=
  ((cs.dropWhile rustIsWhitespace).reverse.dropWhile rustIsWhitespace).reverse

/-- `str::trim`. -/
def rustTrim (s : String) : String := String.mk (rustTrimList s.toList)

/-- `char::is_ascii_alphanumeric`. -/
def isAsciiAlnum (c : Char) : Bool :=
  ('a' ≤ c && c ≤ 'z') || ('A' ≤ c && c ≤ 'Z') || ('0' ≤ c && c ≤ '9')

/-- Strip a character from both ends (`str::trim_matches('-')`). -/
def trimMatchesChar (ch : Char) (cs : List Char) : List Char :=
  ((cs.dropWhile (fun c => c == ch)).reverse.dropWhile (fun c => c == ch)).reverse

/-- `safe_dir_name` (core/src/lib.rs lines 448-463): per-character filter
and lowercasing, each whitespace character mapped to `-`, dashes trimmed
from both ends, `"repo"` when empty. -/
def safe_dir_name (name : String) : String :=
  let out := (rustTrimList name.toList).foldl (fun acc ch =>
    if isAsciiAlnum ch || ch ∈ ['-', '_', '.'] then acc ++ [toAsciiLower ch]
    else if rustIsWhitespace ch then acc ++ ['-']
    else acc) []
  let trimmed := trimMatchesChar '-' out
  if trimmed.isEmpty then "repo" else String.mk trimmed

/-- Modelled from the spec (amended wording of the sanitization rule):
the per-character sanitizer.  ASCII alphanumerics and `-`, `_`, `.` are
kept lowercased, each whitespace character becomes one `-`, every other
character is dropped. -/
def sanitizeChar (ch : Char) : Option Char :=
  if isAsciiAlnum ch || ch ∈ ['-', '_', '.'] then some (toAsciiLower ch)
  else if rustIsWhitespace ch then some '-'
  else none

/-- Modelled from the spec (amended wording): `safe_dir_name` as a
trim / character-map / dash-trim pipeline, for comparison with the
source-derived definition. -/
def safe_dir_name_spec (name : String) : String :=
  let trimmed := trimMatchesChar '-' ((rustTrimList name.toList).filterMap sanitizeChar)
  if trimmed.isEmpty then "repo" else String.mk trimmed

/-- Rust `std::path::Component`, for Unix path syntax.  `drive` is the
`Prefix` variant; Unix path parsing never produces it, but the source's
match arm over it is modelled faithfully. -/
inductive PathComp where
  | rootDir : PathComp
  | curDir : PathComp
  | parentDir : PathComp
  | drive : String → PathComp
  | normal : String → PathComp
  deriving DecidableEq

/-- Split a character list on `/` separators. -/
def splitSlash : List Char → List (List Char)
  | [] => [[]]
  | c :: rest =>
    match splitSlash rest with
    | [] => [[]]
    | cur :: done =>
      if c = '/' then [] :: cur :: done
      else (c :: cur) :: done

/-- `Path::components()` under Unix rules: leading `/` is a root
component, empty segments collapse, `.` segments are dropped except at
the start of a relative path, `..` becomes `parentDir`. -/
def pathComponents (s : String) : List PathComp :=
  let cs := s.toList
  let hasRoot := match cs with
    | '/' :: _ => true
    | _ => false
  let parts := (splitSlash cs).filter (fun p => p ≠ [])
  let mapped := parts.map (fun p =>
    if p = ['.', '.'] then PathComp.parentDir
    else if p = ['.'] then PathComp.curDir
    else PathComp.normal (String.mk p))
  let tail := match mapped with
    | PathComp.curDir :: rest =>
      (if hasRoot then [] else [PathComp.curDir]) ++ rest.filter (fun c => c ≠ PathComp.curDir)
    | l => l.filter (fun c => c ≠ PathComp.curDir)
  (if hasRoot then [PathComp.rootDir] else []) ++ tail

/-- The components `safe_workspace_relpath` rejects. -/
def isTraversalComp : PathComp → Bool
  | PathComp.parentDir => true
  | PathComp.rootDir => true
  | PathComp.drive _ => true
  | _ => false

/-- `safe_workspace_relpath` (core/src/lib.rs lines 465-480). -/
def safe_workspace_relpath (path : String) : Except String String :=
  let trimmed := rustTrim path
  if trimmed = "" then .error "file path is required"
  else if (pathComponents trimmed).any isTraversalComp then .error "file path must be relative"
  else .ok trimmed

/-- SQLite `LIKE` pattern matching over character lists: `%` matches any
run (the rest of the pattern must match some suffix of the text), `_`
matches any single character, other characters match ASCII
case-insensitively. -/
def likeMatchList : List Char → List Char → Bool
  | [], cs => cs.isEmpty
  | p :: ps, cs =>
    if p = '%' then
      (cs.tails).any (fun t => likeMatchList ps t)
    else
      match cs with
      | [] => false
      | c :: cs' =>
        if p = '_' then likeMatchList ps cs'
        else (toAsciiLower p == toAsciiLower c) && likeMatchList ps cs'

/-- ASCII-case-insensitive prefix test, the wildcard-free reading of an
id-prefix lookup. -/
def asciiPrefixMatch : List Char → List Char → Bool
  | [], _ => true
  | _ :: _, [] => false
  | p :: ps, c :: cs => (toAsciiLower p == toAsciiLower c) && asciiPrefixMatch ps cs

/-- SQLite `LIKE` on strings. -/
def likeMatch (pattern s : String) : Bool :=
  likeMatchList pattern.toList s.toList

/-- The `repos` table row. -/
structure RepoRow where
  id : String
  name : String
  root_path : String
  default_branch : String
  remote_url : Option String
  deriving DecidableEq

/-- `get_repo` (core/src/lib.rs lines 510-534): exact id, else exact
name, else the SQL pattern `id LIKE '<ref>%'`; a unique match wins,
several matches are ambiguous, none is not-found.  The registry is the
list of repository rows (ids and names are unique in the store). -/
def get_repo (repos : List RepoRow) (repo_ref : String) : Except String RepoRow :=
  match repos.find? (fun r => r.id == repo_ref) with
  | some repo => .ok repo
  | none =>
    match repos.find? (fun r => r.name == repo_ref) with
    | some repo => .ok repo
    | none =>
      match repos.filter (fun r => likeMatch (repo_ref ++ "%") r.id) with
      | [repo] => .ok repo
      | [] => .error ("repo not found: " ++ repo_ref)
      | _ => .error ("ambiguous repo reference: " ++ repo_ref)

/-- The workspace row (joined with its repository root) that
`get_workspace` returns. -/
structure WsRow where
  id : String
  path : String
  base_branch : String
  repo_root : String
  deriving DecidableEq

/-- `get_workspace` (core/src/lib.rs lines 553-590): exact id, else the
SQL pattern `id LIKE '<ref>%'`; workspaces have no name lookup. -/
def get_workspace (workspaces : List WsRow) (ws_ref : String) : Except String WsRow :=
  match workspaces.find? (fun w => w.id == ws_ref) with
  | some ws => .ok ws
  | none =>
    match workspaces.filter (fun w => likeMatch (ws_ref ++ "%") w.id) with
    | [ws] => .ok ws
    | [] => .error ("workspace not found: " ++ ws_ref)
    | _ => .error ("ambiguous workspace reference: " ++ ws_ref)

/-- `repo_add` (core/src/lib.rs lines 617-657).  External interactions
are supplied as values: `root_str` is the resolved repository root
(`resolve_repo_root`), `file_name` the root's final path segment,
`remote_url` and `head_branch` the results of the two `git_try` calls,
`new_id` the fresh UUID.  Returns the result and the updated registry. -/
def repo_add (repos : List RepoRow) (root_str file_name : String)
    (name_arg default_branch_arg : Option String)
    (remote_url head_branch : Option String) (new_id : String) :
    Except String RepoRow × List RepoRow :=
  match repos.find? (fun r => r.root_path == root_str) with
  | some repo => (.ok repo, repos)
  | none =>
    let name := name_arg.getD file_name
    match repos.find? (fun r => r.name == name) with
    | some other =>
      (.error ("repo name already registered: " ++ name ++ " (" ++ other.root_path ++ ")"),
       repos)
    | none =>
      let default_branch := match default_branch_arg with
        | some b => b
        | none => head_branch.getD "main"
      let repo : RepoRow :=
        { id := new_id, name := name, root_path := root_str,
          default_branch := default_branch, remote_url := remote_url }
      (.ok repo, repos ++ [repo])

/-! ### Effect-traced workspace operations (core/src/lib.rs) -/

/-- Externally visible side effects of the workspace operations.  Each
constructor is recorded exactly where the Rust code performs the
corresponding call. -/
inductive Effect where
  | fsRead : String → Effect
  | gitCall : List String → Effect
  | dbWrite : String → Effect
  | sidecarArchive : Effect
  deriving DecidableEq

/-- `WorkspaceContext` (repo root, base branch, workspace path). -/
structure WorkspaceContext where
  repo_root : String
  base_branch : String
  path : String

/-- `Path::join` with a relative right operand. -/
def joinPath (base rel : String) : String := base ++ "/" ++ rel

/-- `workspace_file_content` (core/src/lib.rs lines 917-923).  The
database lookup result is `ctx`; `readFile` is the filesystem oracle
(read plus UTF-8 validation).  The second component is the trace of
filesystem / git effects performed. -/
def workspace_file_content (ctx : Except String WorkspaceContext) (file_path : String)
    (readFile : String → Except String String) :
    Except String String × List Effect :=
  match ctx with
  | .error e => (.error e, [])
  | .ok c =>
    match safe_workspace_relpath file_path with
    | .error e => (.error e, [])
    | .ok rel =>
      let full := joinPath c.path rel
      (readFile full, [Effect.fsRead full])

/-- `workspace_file_diff` (core/src/lib.rs lines 925-940).
`resolveBase` is the outcome of `resolve_base_ref` (itself a git
invocation, recorded in the trace); `runGit` runs the diff. -/
def workspace_file_diff (ctx : Except String WorkspaceContext) (file_path : String)
    (resolveBase : Except String String)
    (runGit : List String → Except String String) :
    Except String String × List Effect :=
  match ctx with
  | .error e => (.error e, [])
  | .ok c =>
    match safe_workspace_relpath file_path with
    | .error e => (.error e, [])
    | .ok rel =>
      match resolveBase with
      | .error e => (.error e, [Effect.gitCall ["resolve-base", c.base_branch]])
      | .ok base_ref =>
        let args := ["diff", "--no-color", base_ref ++ "...HEAD", "--", rel]
        (runGit args,
         [Effect.gitCall ["resolve-base", c.base_branch], Effect.gitCall args])

/-- `ArchiveResult`. -/
structure ArchiveResult where
  id : String
  ok : Bool
  removed : Bool
  message : String
  deriving DecidableEq

/-- The `git status --porcelain --untracked-files=all` invocation. -/
def statusArgs : List String := ["status", "--porcelain", "--untracked-files=all"]

/-- Tail of `workspace_archive` shared by all surviving paths: the
best-effort `worktree prune` and the row update to `archived`. -/
def archive_finish (ws : WsRow) (removed : Bool) (message : String)
    (prune : Except String String) (dbUpdate : Except String Unit) :
    Except String ArchiveResult × List Effect :=
  let message := match prune with
    | .error err => message ++ " (prune failed: " ++ err ++ ")"
    | .ok _ => message
  let effects := [Effect.gitCall ["worktree", "prune"],
    Effect.dbWrite "UPDATE workspaces SET state = archived"]
  match dbUpdate with
  | .error e => (.error e, effects)
  | .ok _ => (.ok { id := ws.id, ok := true, removed := removed, message := message }, effects)

/-- `workspace_archive` (core/src/lib.rs lines 1106-1155).  Oracle
arguments carry the outcomes of the external calls: the workspace lookup
(`ws`), `Path::exists` (`pathExists`), `conductor_app_archive`
(`archiveSidecar`), `git status` (`gitStatus`), `git worktree remove`
(`wtRemove`), `git worktree prune` (`prune`) and the row update
(`dbUpdate`).  The trace records each call actually performed. -/
def workspace_archive (ws : Except String WsRow) (force : Bool)
    (pathExists : Bool) (archiveSidecar : Except String Unit)
    (gitStatus : Except String String) (wtRemove : Except String String)
    (prune : Except String String) (dbUpdate : Except String Unit) :
    Except String ArchiveResult × List Effect :=
  match ws with
  | .error e => (.error e, [])
  | .ok ws =>
    if pathExists then
      let message := match archiveSidecar with
        | .error err => "warning: failed to archive session data: " ++ err
        | .ok _ => "archived"
      let preEffects := [Effect.sidecarArchive]
      let removeArgs := if force then ["worktree", "remove", "--force", "--", ws.path]
        else ["worktree", "remove", "--", ws.path]
      if !force then
        match gitStatus with
        | .error e => (.error e, preEffects ++ [Effect.gitCall statusArgs])
        | .ok status =>
          if rustTrim status ≠ "" then
            (.error ("workspace has uncommitted changes; commit or stash before archiving, or pass --force: " ++ ws.path),
             preEffects ++ [Effect.gitCall statusArgs])
          else
            match wtRemove with
            | .error e =>
              (.error e, preEffects ++ [Effect.gitCall statusArgs, Effect.gitCall removeArgs])
            | .ok _ =>
              let fin := archive_finish ws true message prune dbUpdate
              (fin.1,
               preEffects ++ [Effect.gitCall statusArgs, Effect.gitCall removeArgs] ++ fin.2)
      else
        match wtRemove with
        | .error e => (.error e, preEffects ++ [Effect.gitCall removeArgs])
        | .ok _ =>
          let fin := archive_finish ws true message prune dbUpdate
          (fin.1, preEffects ++ [Effect.gitCall removeArgs] ++ fin.2)
    else
      archive_finish ws false "workspace path already removed" prune dbUpdate

/-! ### Observation helpers used by the statements -/

/-- Top-level `type` test on an input value. -/
def isType (v : Json) (t : String) : Bool := value_str v "type" == some t

/-- The thread id recorded by a Codex `thread.started` input (none for
any other input, or when `thread_id` is absent / not a string). -/
def threadId (v : Json) : Option String :=
  if isType v "thread.started" then value_str v "thread_id" else none

/-- Number of Codex `turn.started` inputs in a sequence. -/
def countTurnStarted (vs : List Json) : Nat :=
  (vs.filter (fun v => isType v "turn.started")).length

/-- The `agent_message` text carried by a Codex item payload. -/
def itemMsgText (item : Json) : Option String :=
  if (value_str item "type").getD "" = "agent_message" then
    value_str item "text"
  else none

/-- The assistant-answer text carried by a Codex `item.*` input. -/
def agentMsgText (v : Json) : Option String :=
  if isType v "item.started" || isType v "item.updated" || isType v "item.completed" then
    (v.get? "item").bind itemMsgText
  else none

/-- The resume token after a sequence of Codex inputs: the last
`thread.started` thread id seen. -/
def lastResume (vs : List Json) : Option String :=
  vs.foldl (fun acc v => (threadId v).orElse (fun _ => acc)) none

/-- The running answer after a sequence of Codex inputs: the text of the
last `agent_message` item seen. -/
def lastAnswer (vs : List Json) : Option String :=
  vs.foldl (fun acc v => (agentMsgText v).orElse (fun _ => acc)) none

/-- Whether field `key` of `v` is the string `s`. -/
def strField (v : Json) (key s : String) : Bool :=
  match v.get? key with
  | some (.str t) => t == s
  | _ => false

/-- Whether an event's `action.id` is `u`. -/
def actionIdIs (e : Json) (u : String) : Bool :=
  match e.get? "action" with
  | some a => strField a "id" u
  | none => false

/-- Whether `e` is an `agent.action` event with the given phase whose
action id is `u`. -/
def isActionWith (e : Json) (phase u : String) : Bool :=
  strField e "type" "agent.action" && strField e "phase" phase && actionIdIs e u

/-- Number of `agent.action{phase:"started"}` events with action id `u`. -/
def startedCount (evs : List Json) (u : String) : Nat :=
  (evs.filter (fun e => isActionWith e "started" u)).length

/-- Number of `agent.action{phase:"completed"}` events with action id `u`. -/
def completedCount (evs : List Json) (u : String) : Nat :=
  (evs.filter (fun e => isActionWith e "completed" u)).length

/-- The `ok` field of an event. -/
def okField (e : Json) : Option Json := e.get? "ok"

/-- The `type` string of a Claude content block (empty when absent). -/
def blockType (b : Json) : String := (value_str b "type").getD ""

/-- A `tool_use` block with id `u`. -/
def isToolUseBlock (b : Json) (u : String) : Bool :=
  blockType b == "tool_use" && value_str b "id" == some u

/-- A `tool_result` block with tool-use id `u`. -/
def isToolResultBlock (b : Json) (u : String) : Bool :=
  blockType b == "tool_result" && value_str b "tool_use_id" == some u

/-- The `is_error` flag of a `tool_result` block. -/
def blockIsError (b : Json) : Bool :=
  (b.get? "is_error").bind Json.asBool? == some true

/-- Inputs shaped for the Claude engine (top-level `type`). -/
def isClaudeType (v : Json) : Bool :=
  isType v "system" || isType v "assistant" || isType v "result"

/-- The content blocks of a Claude `assistant` input (empty for any
other shape). -/
def blocksOf (v : Json) : List Json :=
  if isType v "assistant" then
    match (v.get? "message").bind Json.asObj? with
    | some message =>
      match (lookupKey message "content").bind Json.asArr? with
      | some content => content
      | none => []
    | none => []
  else []

/-- All content blocks across a sequence of inputs. -/
def allBlocks (vs : List Json) : List Json := (vs.map blocksOf).flatten

/-- Whether the pending map holds key `k`. -/
def pendingHas (s : ClaudeState) (k : String) : Bool :=
  s.pending.any (fun kv => kv.1 == k)

/-- Whether input `v` carries a `tool_use` block with id `k`. -/
def hasToolUse (v : Json) (k : String) : Bool :=
  (blocksOf v).any (fun b => isToolUseBlock b k)

/-- Whether input `v` carries a `tool_result` block with tool-use id `k`. -/
def hasToolResult (v : Json) (k : String) : Bool :=
  (blocksOf v).any (fun b => isToolResultBlock b k)

/-- A Claude `assistant` input with the given content blocks. -/
def mkAssistant (blocks : List Json) : Json :=
  .obj [("type", .str "assistant"), ("message", .obj [("content", .arr blocks)])]

/-- Invariant of the pending map: every stored action is an object whose
`id` field is its key. -/
def pendingInv (s : ClaudeState) : Prop :=
  ∀ kv ∈ s.pending,
    ∃ fields, kv.2 = Json.obj fields ∧ (Json.obj fields).get? "id" = some (.str kv.1)

/-- Whether a todo entry is an object with the given status (a missing
or non-string status counts as `pending`). -/
def todoHasStatus (t : Json) (s : String) : Bool :=
  match t.asObj? with
  | some obj => ((lookupKey obj "status").bind Json.asStr?).getD "pending" == s
  | none => false

/-- A todo entry that is an object but neither completed nor in
progress (counted as pending by the parser). -/
def todoCountsPending (t : Json) : Bool :=
  t.asObj?.isSome && !todoHasStatus t "completed" && !todoHasStatus t "in_progress"

/-- The display task of a todo entry: `activeForm`, else `content`. -/
def todoTask (t : Json) : Option String :=
  match t.asObj? with
  | some obj =>
    ((lookupKey obj "activeForm").orElse (fun _ => lookupKey obj "content")).bind Json.asStr?
  | none => none

/-- The task the parser displays: the first in-progress todo whose
`activeForm` / `content` yields a string. -/
def firstTodoTask (todos : List Json) : Option String :=
  (todos.filterMap (fun t =>
    if todoHasStatus t "in_progress" then todoTask t else none)).head?


/-- A Claude `tool_use` block invoking TodoWrite. -/
def mkTodoWriteBlock (tool_id : String) (tool_input : List (String × Json)) : Json :=
  .obj [("type", .str "tool_use"), ("id", .str tool_id),
        ("name", .str "TodoWrite"), ("input", .obj tool_input)]

/-- A Claude `tool_result` block. -/
def mkToolResultBlock (tool_use_id : String) (content : Json) (is_error : Bool) : Json :=
  .obj [("type", .str "tool_result"), ("tool_use_id", .str tool_use_id),
        ("content", content), ("is_error", .bool is_error)]

/-! ## Basic lemmas about the JSON map operations -/

theorem get_obj_eq_lookupKey (m : List (String × Json)) (k : String) :
    (Json.obj m).get? k = lookupKey m k := rfl

theorem lookup_cons_pos {kv : String × Json} {rest : List (String × Json)} {k : String}
    (h : kv.1 = k) : lookupKey (kv :: rest) k = some kv.2 := by
  unfold lookupKey
  rw [List.find?_cons_of_pos _ (by simpa using h)]
  rfl

theorem lookup_cons_neg {kv : String × Json} {rest : List (String × Json)} {k : String}
    (h : kv.1 ≠ k) : lookupKey (kv :: rest) k = lookupKey rest k := by
  unfold lookupKey
  rw [List.find?_cons_of_neg _ (by simpa using h)]

theorem lookup_of_any_false (m : List (String × Json)) (k : String)
    (h : m.any (fun kv => kv.1 == k) = false) : lookupKey m k = none := by
  induction m with
  | nil => simp [lookupKey]
  | cons kv rest ih =>
    by_cases hk : kv.1 = k
    · simp [List.any_cons, hk] at h
    · rw [lookup_cons_neg hk]
      exact ih (by simpa [List.any_cons, hk] using h)

theorem lookup_append (m l : List (String × Json)) (k : String)
    (h : lookupKey m k = none) : lookupKey (m ++ l) k = lookupKey l k := by
  induction m with
  | nil => simp
  | cons kv rest ih =>
    by_cases hk : kv.1 = k
    · rw [lookup_cons_pos hk] at h; exact absurd h (by simp)
    · rw [List.cons_append, lookup_cons_neg hk]
      exact ih (by rwa [lookup_cons_neg hk] at h)

theorem lookup_map_replace_self (m : List (String × Json)) (k : String) (v : Json)
    (h : m.any (fun kv => kv.1 == k) = true) :
    lookupKey (m.map (fun kv => if kv.1 == k then (k, v) else kv)) k = some v := by
  induction m with
  | nil => simp at h
  | cons kv rest ih =>
    rw [List.map_cons]
    by_cases hk : kv.1 = k
    · have heq : (if kv.1 == k then (k, v) else kv) = (k, v) := by simp [hk]
      rw [heq, lookup_cons_pos rfl]
    · have heq : (if kv.1 == k then (k, v) else kv) = kv := by simp [hk]
      rw [heq, lookup_cons_neg hk]
      exact ih (by simpa [List.any_cons, hk] using h)

theorem lookup_jinsert_self (m : List (String × Json)) (k : String) (v : Json) :
    lookupKey (jinsert m k v) k = some v := by
  unfold jinsert
  split
  · exact lookup_map_replace_self m k v (by assumption)
  · rename_i hcond
    have hfalse : (m.any fun kv => kv.1 == k) = false := by
      cases hval : (m.any fun kv => kv.1 == k)
      · rfl
      · exact absurd hval hcond
    rw [lookup_append m [(k, v)] k (lookup_of_any_false m k hfalse)]
    exact lookup_cons_pos rfl

theorem lookup_map_replace_ne (m : List (String × Json)) (k k' : String) (v : Json)
    (h : k' ≠ k) :
    lookupKey (m.map (fun kv => if kv.1 == k then (k, v) else kv)) k' = lookupKey m k' := by
  induction m with
  | nil => simp [lookupKey]
  | cons kv rest ih =>
    rw [List.map_cons]
    by_cases hk : kv.1 = k
    · have heq : (if kv.1 == k then (k, v) else kv) = (k, v) := by simp [hk]
      have hne : ((k, v) : String × Json).1 ≠ k' := Ne.symm h
      have hne2 : kv.1 ≠ k' := by rw [hk]; exact Ne.symm h
      rw [heq, lookup_cons_neg hne, lookup_cons_neg hne2]
      exact ih
    · have heq : (if kv.1 == k then (k, v) else kv) = kv := by simp [hk]
      rw [heq]
      by_cases hk2 : kv.1 = k'
      · rw [lookup_cons_pos hk2, lookup_cons_pos hk2]
      · rw [lookup_cons_neg hk2, lookup_cons_neg hk2]
        exact ih

theorem lookup_append_single_ne (m : List (String × Json)) (k k' : String) (v : Json)
    (h : k' ≠ k) : lookupKey (m ++ [(k, v)]) k' = lookupKey m k' := by
  induction m with
  | nil =>
    have hne : ((k, v) : String × Json).1 ≠ k' := Ne.symm h
    rw [List.nil_append, lookup_cons_neg hne]
  | cons kv rest ih =>
    by_cases hk2 : kv.1 = k'
    · rw [List.cons_append, lookup_cons_pos hk2, lookup_cons_pos hk2]
    · rw [List.cons_append, lookup_cons_neg hk2, lookup_cons_neg hk2]
      exact ih

theorem lookup_jinsert_ne (m : List (String × Json)) (k k' : String) (v : Json)
    (h : k' ≠ k) : lookupKey (jinsert m k v) k' = lookupKey m k' := by
  unfold jinsert
  split
  · exact lookup_map_replace_ne m k k' v h
  · exact lookup_append_single_ne m k k' v h

theorem mem_jinsert {m : List (String × Json)} {k : String} {v : Json}
    {kv : String × Json} (h : kv ∈ jinsert m k v) : kv ∈ m ∨ kv = (k, v) := by
  unfold jinsert at h
  split at h
  · obtain ⟨kv', hkv', heq⟩ := List.mem_map.mp h
    by_cases hk : kv'.1 = k
    · right
      rw [← heq]
      simp [hk]
    · left
      rw [← heq]
      simpa [hk] using hkv'
  · rcases List.mem_append.mp h with h | h
    · exact Or.inl h
    · right; simpa using h

/-! ## Field lemmas for the event constructors -/

theorem action_event_get_type (engine phase : String) (action : Json) (ok : Option Bool)
    (message level : Option String) :
    (action_event engine phase action ok message level).get? "type" =
      some (.str "agent.action") := by
  cases ok <;> cases message <;> cases level <;> rfl

theorem action_event_get_phase (engine phase : String) (action : Json) (ok : Option Bool)
    (message level : Option String) :
    (action_event engine phase action ok message level).get? "phase" = some (.str phase) := by
  cases ok <;> cases message <;> cases level <;> rfl

theorem action_event_get_action (engine phase : String) (action : Json) (ok : Option Bool)
    (message level : Option String) :
    (action_event engine phase action ok message level).get? "action" = some action := by
  cases ok <;> cases message <;> cases level <;> rfl

theorem action_event_get_ok (engine phase : String) (action : Json) (ok : Option Bool)
    (message level : Option String) :
    (action_event engine phase action ok message level).get? "ok" = ok.map Json.bool := by
  cases ok <;> cases message <;> cases level <;> rfl

theorem started_event_get_type (engine resume : String) (title : Option String)
    (meta : Option Json) :
    (started_event engine resume title meta).get? "type" = some (.str "agent.started") := by
  cases title <;> cases meta <;> rfl

theorem message_event_get_type (engine text : String) :
    (message_event engine text).get? "type" = some (.str "agent.message") := rfl

theorem completed_event_get_type (engine : String) (ok : Bool) (answer : String)
    (resume error : Option String) (usage : Option Json) :
    (completed_event engine ok answer resume error usage).get? "type" =
      some (.str "agent.completed") := by
  cases resume <;> cases error <;> cases usage <;> rfl

theorem action_map_get_id (id kind title : String) (detail : List (String × Json)) :
    (action_map id kind title detail).get? "id" = some (.str id) := rfl

theorem action_map_get_kind (id kind title : String) (detail : List (String × Json)) :
    (action_map id kind title detail).get? "kind" = some (.str kind) := rfl

theorem action_map_get_title (id kind title : String) (detail : List (String × Json)) :
    (action_map id kind title detail).get? "title" = some (.str title) := rfl

theorem action_map_get_detail (id kind title : String) (detail : List (String × Json)) :
    (action_map id kind title detail).get? "detail" = some (.obj detail) := rfl


/-! ## State-step lemmas for the Codex parser -/

theorem codex_item_events_state (phase : String) (item : Json) (s : CodexState) :
    (codex_item_events phase item s).2 =
      match itemMsgText item with
      | some text => { s with answer := some text }
      | none => s := by
  unfold codex_item_events itemMsgText
  by_cases ht : (value_str item "type").getD "" = "agent_message"
  · simp only [if_pos ht]
    cases value_str item "text" <;> rfl
  · simp only [if_neg ht]
    cases value_str item "id" with
    | none => rfl
    | some id =>
      repeat' first
        | rfl
        | split

theorem parse_codex_event_state (v : Json) (s : CodexState) :
    (parse_codex_event v s).2 =
      { resume := (threadId v).orElse (fun _ => s.resume),
        answer := (agentMsgText v).orElse (fun _ => s.answer),
        turn_index := s.turn_index + (if isType v "turn.started" then 1 else 0),
        note_seq := s.note_seq +
          (if isType v "error" && (value_str v "message").isSome then 1 else 0) } := by
  unfold parse_codex_event threadId agentMsgText isType
  repeat' split
  all_goals first
    | rfl
    | (rw [codex_item_events_state]
       repeat' split
       all_goals simp_all)
    | simp_all

theorem parse_value_codex (p : AgentParser) (v : Json) :
    ((parse_value p v).2).codex = (parse_codex_event v p.codex).2 := by
  unfold parse_value
  dsimp only
  repeat' first
    | rfl
    | split

theorem parse_value_claude (p : AgentParser) (v : Json) :
    ((parse_value p v).2).claude =
      match (parse_codex_event v p.codex).1 with
      | some _ => p.claude
      | none => (parse_claude_event v p.claude).2 := by
  unfold parse_value
  dsimp only
  repeat' first
    | rfl
    | split

theorem runState_cons (p : AgentParser) (v : Json) (rest : List Json) :
    runState p (v :: rest) = runState (parse_value p v).2 rest := rfl

theorem runState_codex_resume (vs : List Json) :
    ∀ p : AgentParser, ((runState p vs).codex).resume =
      vs.foldl (fun acc v => (threadId v).orElse (fun _ => acc)) p.codex.resume := by
  induction vs with
  | nil => intro p; rfl
  | cons v rest ih =>
    intro p
    rw [runState_cons, ih, List.foldl_cons, parse_value_codex, parse_codex_event_state]

theorem runState_codex_answer (vs : List Json) :
    ∀ p : AgentParser, ((runState p vs).codex).answer =
      vs.foldl (fun acc v => (agentMsgText v).orElse (fun _ => acc)) p.codex.answer := by
  induction vs with
  | nil => intro p; rfl
  | cons v rest ih =>
    intro p
    rw [runState_cons, ih, List.foldl_cons, parse_value_codex, parse_codex_event_state]

theorem countTurnStarted_cons (v : Json) (vs : List Json) :
    countTurnStarted (v :: vs) =
      (if isType v "turn.started" then 1 else 0) + countTurnStarted vs := by
  unfold countTurnStarted
  rw [List.filter_cons]
  split <;> simp [Nat.add_comm]

theorem runState_codex_turn_index (vs : List Json) :
    ∀ p : AgentParser, ((runState p vs).codex).turn_index =
      p.codex.turn_index + countTurnStarted vs := by
  induction vs with
  | nil => intro p; simp [countTurnStarted]; rfl
  | cons v rest ih =>
    intro p
    rw [runState_cons, ih, countTurnStarted_cons, parse_value_codex, parse_codex_event_state]
    dsimp only
    omega

theorem foldl_orElse_skip (l : List Json) (f : Json → Option String)
    (init : Option String) (h : ∀ v ∈ l, f v = none) :
    l.foldl (fun acc v => (f v).orElse (fun _ => acc)) init = init := by
  induction l generalizing init with
  | nil => rfl
  | cons v rest ih =>
    rw [List.foldl_cons, h v (List.mem_cons_self v rest)]
    exact ih init (fun w hw => h w (List.mem_cons_of_mem v hw))

theorem parse_codex_turn_completed (v : Json) (s : CodexState)
    (h : isType v "turn.completed" = true) :
    (parse_codex_event v s).1 =
      some [action_event "codex" "completed"
              (action_map ("turn:" ++ toString (s.turn_index - 1)) "turn" "turn completed" [])
              (some true) none none,
            completed_event "codex" true (s.answer.getD "") s.resume none (v.get? "usage")] := by
  unfold parse_codex_event
  rw [show value_str v "type" = some "turn.completed" by simpa [isType] using h]
  rfl

theorem parse_value_fst_of_codex_some (p : AgentParser) (v : Json) (evs : List Json)
    (h : (parse_codex_event v p.codex).1 = some evs) : (parse_value p v).1 = some evs := by
  unfold parse_value
  dsimp only
  split
  · rename_i heq
    rw [heq] at h
    simpa using h
  · rename_i heq
    rw [heq] at h
    exact absurd h (by simp)

theorem lastResume_layout (pre1 pre2 : List Json) (ts : Json) (T : String)
    (hts : threadId ts = some T)
    (hpre2 : ∀ v ∈ pre2, threadId v = none) :
    lastResume (pre1 ++ ts :: pre2) = some T := by
  unfold lastResume
  rw [List.foldl_append, List.foldl_cons, hts]
  exact foldl_orElse_skip pre2 threadId (some T) hpre2

/-- C1: after a Codex `thread.started` with `thread_id = T` and no later
`thread.started`, a `turn.completed` input yields exactly two events:
the completed turn action `turn:N-1` (with `N` the number of
`turn.started` inputs seen, the subtraction saturating at zero) with
`ok = true`, then `agent.completed{engine:"codex", ok:true,
answer:last agent_message text (default ""), resume:T, usage}`. -/
theorem codex_turn_completed_c1 (pre1 pre2 : List Json) (ts tc : Json) (T : String)
    (hts : isType ts "thread.started" = true)
    (hid : value_str ts "thread_id" = some T)
    (hpre2 : pre2.all (fun v => !(isType v "thread.started")) = true)
    (htc : isType tc "turn.completed" = true) :
    (parse_value (runState AgentParser.new (pre1 ++ ts :: pre2)) tc).1 =
      some [action_event "codex" "completed"
              (action_map ("turn:" ++ toString (countTurnStarted (pre1 ++ ts :: pre2) - 1))
                "turn" "turn completed" [])
              (some true) none none,
            completed_event "codex" true ((lastAnswer (pre1 ++ ts :: pre2)).getD "")
              (some T) none (tc.get? "usage")] := by
  have hts' : threadId ts = some T := by
    unfold threadId
    rw [if_pos hts]
    exact hid
  have hpre2' : ∀ v ∈ pre2, threadId v = none := by
    intro v hv
    have := List.all_eq_true.mp hpre2 v hv
    unfold threadId
    rw [if_neg]
    simp only [Bool.not_eq_true'] at this
    simp [this]
  have hresume : ((runState AgentParser.new (pre1 ++ ts :: pre2)).codex).resume = some T := by
    rw [runState_codex_resume]
    exact lastResume_layout pre1 pre2 ts T hts' hpre2'
  have hanswer : ((runState AgentParser.new (pre1 ++ ts :: pre2)).codex).answer =
      lastAnswer (pre1 ++ ts :: pre2) := by
    rw [runState_codex_answer]
    rfl
  have hturn : ((runState AgentParser.new (pre1 ++ ts :: pre2)).codex).turn_index =
      countTurnStarted (pre1 ++ ts :: pre2) := by
    rw [runState_codex_turn_index]
    rw [show AgentParser.new.codex.turn_index = 0 from rfl, Nat.zero_add]
  apply parse_value_fst_of_codex_some
  rw [parse_codex_turn_completed tc _ htc, hresume, hanswer, hturn]

theorem codex_turn_completed_c1_witness :
    (parse_value (runState AgentParser.new
        ([] ++ Json.obj [("type", Json.str "thread.started"), ("thread_id", Json.str "t1")] ::
          [Json.obj [("type", Json.str "turn.started")]]))
      (Json.obj [("type", Json.str "turn.completed"),
                 ("usage", Json.obj [("input_tokens", Json.num 10)])])).1 =
      some [action_event "codex" "completed"
              (action_map ("turn:" ++ toString (countTurnStarted
                  ([] ++ Json.obj [("type", Json.str "thread.started"), ("thread_id", Json.str "t1")] ::
                    [Json.obj [("type", Json.str "turn.started")]]) - 1))
                "turn" "turn completed" [])
              (some true) none none,
            completed_event "codex" true
              ((lastAnswer ([] ++ Json.obj [("type", Json.str "thread.started"), ("thread_id", Json.str "t1")] ::
                  [Json.obj [("type", Json.str "turn.started")]])).getD "")
              (some "t1") none
              ((Json.obj [("type", Json.str "turn.completed"),
                          ("usage", Json.obj [("input_tokens", Json.num 10)])]).get? "usage")] :=
  codex_turn_completed_c1 [] [Json.obj [("type", Json.str "turn.started")]]
    (Json.obj [("type", Json.str "thread.started"), ("thread_id", Json.str "t1")])
    (Json.obj [("type", Json.str "turn.completed"),
               ("usage", Json.obj [("input_tokens", Json.num 10)])])
    "t1" rfl rfl rfl rfl

/-! ## C8: directory-name sanitization -/

theorem safe_dir_name_c8_counterexample :
    safe_dir_name "a  b" = "a--b" ∧ safe_dir_name "a  b" ≠ "a-b" := by
  constructor
  · rfl
  · decide

theorem foldl_sanitize (cs : List Char) : ∀ acc : List Char,
    cs.foldl (fun acc ch =>
      if isAsciiAlnum ch || ch ∈ ['-', '_', '.'] then acc ++ [toAsciiLower ch]
      else if rustIsWhitespace ch then acc ++ ['-']
      else acc) acc = acc ++ cs.filterMap sanitizeChar := by
  induction cs with
  | nil => intro acc; simp
  | cons c rest ih =>
    intro acc
    rw [List.foldl_cons, List.filterMap_cons]
    by_cases h1 : isAsciiAlnum c || c ∈ ['-', '_', '.']
    · have hc : sanitizeChar c = some (toAsciiLower c) := by
        unfold sanitizeChar; rw [if_pos h1]
      rw [hc]
      simp only [if_pos h1]
      rw [ih]
      simp
    · by_cases h2 : rustIsWhitespace c
      · have hc : sanitizeChar c = some '-' := by
          unfold sanitizeChar; rw [if_neg h1, if_pos h2]
        rw [hc]
        simp only [if_neg h1, if_pos h2]
        rw [ih]
        simp
      · have hc : sanitizeChar c = none := by
          unfold sanitizeChar; rw [if_neg h1, if_neg h2]
        rw [hc]
        simp only [if_neg h1, if_neg h2]
        rw [ih]

/-- C8 (amended): `safe_dir_name` keeps ASCII alphanumerics and `-`,
`_`, `.` lowercased, maps each whitespace character to one `-` (a run
of N whitespace characters becomes N dashes, not one), drops every
other character, trims `-` from both ends of the trimmed input, and
falls back to `"repo"` when the result is empty — i.e. it agrees with
the per-character specification pipeline `safe_dir_name_spec`. -/
theorem safe_dir_name_c8 (name : String) :
    safe_dir_name name = safe_dir_name_spec name := by
  unfold safe_dir_name safe_dir_name_spec
  rw [foldl_sanitize (rustTrimList name.toList) []]
  rw [List.nil_append]

/-! ## C9: Codex top-level `error` without a message -/

/-- C9: on a Codex top-level `error` input with no `message` field, the
parser returns `none` (input unrecognized) and leaves the state
unchanged — not `Some([])` as the specification's preferred variant
states. -/
theorem codex_error_no_message_c9 :
    parse_value AgentParser.new (Json.obj [("type", Json.str "error")]) =
      (none, AgentParser.new) := rfl

/-! ## C10: repository re-registration is idempotent -/

/-- C10: when a repository row for the resolved root path already
exists, `repo_add` returns it unchanged, inserts nothing, and ignores
the caller-supplied name and default-branch arguments. -/
theorem repo_add_idempotent_c10 (repos : List RepoRow) (root_str file_name : String)
    (name1 db1 name2 db2 remote_url head_branch : Option String) (id1 id2 : String)
    (r : RepoRow)
    (h : repos.find? (fun x => x.root_path == root_str) = some r) :
    repo_add repos root_str file_name name1 db1 remote_url head_branch id1 = (.ok r, repos) ∧
    repo_add repos root_str file_name name1 db1 remote_url head_branch id1 =
      repo_add repos root_str file_name name2 db2 remote_url head_branch id2 := by
  unfold repo_add
  rw [h]
  exact ⟨rfl, rfl⟩

theorem repo_add_idempotent_c10_witness :
    repo_add [{ id := "id-1", name := "proj", root_path := "/repo",
                default_branch := "main", remote_url := none }]
      "/repo" "repo" (some "other") (some "dev") none none "id-2" =
      (.ok { id := "id-1", name := "proj", root_path := "/repo",
             default_branch := "main", remote_url := none },
       [{ id := "id-1", name := "proj", root_path := "/repo",
          default_branch := "main", remote_url := none }]) :=
  (repo_add_idempotent_c10
    [{ id := "id-1", name := "proj", root_path := "/repo",
       default_branch := "main", remote_url := none }]
    "/repo" "repo" (some "other") (some "dev") none none
    none none "id-2" "id-3"
    { id := "id-1", name := "proj", root_path := "/repo",
      default_branch := "main", remote_url := none } rfl).1

/-! ## C3: traversal paths are rejected before any filesystem or git access -/

theorem safe_relpath_rejects (file_path : String)
    (hbad : rustTrim file_path = "" ∨
      (pathComponents (rustTrim file_path)).any isTraversalComp = true) :
    safe_workspace_relpath file_path = .error "file path is required" ∨
      safe_workspace_relpath file_path = .error "file path must be relative" := by
  unfold safe_workspace_relpath
  rcases hbad with h | h
  · left; rw [if_pos h]
  · by_cases h0 : rustTrim file_path = ""
    · exfalso
      rw [h0] at h
      rw [show pathComponents "" = [] from rfl] at h
      simp at h
    · right; rw [if_neg h0, if_pos h]

theorem safe_relpath_traversal (file_path : String)
    (h : (pathComponents (rustTrim file_path)).any isTraversalComp = true) :
    safe_workspace_relpath file_path = .error "file path must be relative" := by
  unfold safe_workspace_relpath
  have h0 : rustTrim file_path ≠ "" := by
    intro h0
    rw [h0] at h
    rw [show pathComponents "" = [] from rfl] at h
    simp at h
  rw [if_neg h0, if_pos h]

/-- C3: for an empty (after trimming) file path, or one whose components
contain a parent-directory, root, or drive-prefix component, both
`workspace_file_content` and `workspace_file_diff` return an error, make
no filesystem read and no git invocation, and — whenever the workspace
lookup itself succeeded and the path is a traversal — the error is
`file path must be relative`. -/
theorem path_traversal_rejected_c3 (ctx : Except String WorkspaceContext)
    (file_path : String) (readFile : String → Except String String)
    (resolveBase : Except String String) (runGit : List String → Except String String)
    (hbad : rustTrim file_path = "" ∨
      (pathComponents (rustTrim file_path)).any isTraversalComp = true) :
    (∃ e, (workspace_file_content ctx file_path readFile).1 = .error e) ∧
    (workspace_file_content ctx file_path readFile).2 = [] ∧
    (∃ e, (workspace_file_diff ctx file_path resolveBase runGit).1 = .error e) ∧
    (workspace_file_diff ctx file_path resolveBase runGit).2 = [] ∧
    ((pathComponents (rustTrim file_path)).any isTraversalComp = true →
      ∀ c, ctx = .ok c →
        (workspace_file_content ctx file_path readFile).1 = .error "file path must be relative" ∧
        (workspace_file_diff ctx file_path resolveBase runGit).1 = .error "file path must be relative") := by
  cases ctx with
  | error e =>
    refine ⟨⟨e, rfl⟩, rfl, ⟨e, rfl⟩, rfl, ?_⟩
    intro _ c hc
    exact absurd hc (by simp)
  | ok c =>
    rcases safe_relpath_rejects file_path hbad with h | h
    · have hcontent : workspace_file_content (.ok c) file_path readFile =
          (.error "file path is required", []) := by
        unfold workspace_file_content
        rw [h]
      have hdiff : workspace_file_diff (.ok c) file_path resolveBase runGit =
          (.error "file path is required", []) := by
        unfold workspace_file_diff
        rw [h]
      refine ⟨⟨_, by rw [hcontent]⟩, by rw [hcontent], ⟨_, by rw [hdiff]⟩, by rw [hdiff], ?_⟩
      intro hany c' _
      have h' := safe_relpath_traversal file_path hany
      rw [h] at h'
      have hcontent' : workspace_file_content (.ok c) file_path readFile =
          (.error "file path must be relative", []) := by
        unfold workspace_file_content
        rw [h, h']
      have hdiff' : workspace_file_diff (.ok c) file_path resolveBase runGit =
          (.error "file path must be relative", []) := by
        unfold workspace_file_diff
        rw [h, h']
      exact ⟨by rw [hcontent'], by rw [hdiff']⟩
    · have hcontent : workspace_file_content (.ok c) file_path readFile =
          (.error "file path must be relative", []) := by
        unfold workspace_file_content
        rw [h]
      have hdiff : workspace_file_diff (.ok c) file_path resolveBase runGit =
          (.error "file path must be relative", []) := by
        unfold workspace_file_diff
        rw [h]
      refine ⟨⟨_, by rw [hcontent]⟩, by rw [hcontent], ⟨_, by rw [hdiff]⟩, by rw [hdiff], ?_⟩
      intro _ c' _
      exact ⟨by rw [hcontent], by rw [hdiff]⟩

theorem path_traversal_rejected_c3_witness :
    (∃ e, (workspace_file_content
      (.ok { repo_root := "/repo", base_branch := "main", path := "/ws" })
      "../secret" (fun _ => .ok "data")).1 = .error e) ∧
    (workspace_file_content
      (.ok { repo_root := "/repo", base_branch := "main", path := "/ws" })
      "../secret" (fun _ => .ok "data")).2 = [] := by
  have h := path_traversal_rejected_c3
    (.ok { repo_root := "/repo", base_branch := "main", path := "/ws" })
    "../secret" (fun _ => .ok "data") (.ok "main") (fun _ => .ok "")
    (Or.inr (by decide))
  exact ⟨h.1, h.2.1⟩

/-! ## C4: archival refuses a dirty worktree and leaves state untouched -/

/-- C4: with the workspace directory present, `force = false`, and a
non-empty `git status --porcelain --untracked-files=all` output, archival
fails with the actionable uncommitted-changes error; the only effects
performed are the best-effort sidecar archive and the status call — in
particular no database update and no `git worktree` mutation occur. -/
theorem archive_dirty_c4 (ws : WsRow) (archiveSidecar : Except String Unit)
    (gitStatus wtRemove prune : Except String String) (dbUpdate : Except String Unit)
    (status : String)
    (hstatus : gitStatus = .ok status) (hdirty : rustTrim status ≠ "") :
    workspace_archive (.ok ws) false true archiveSidecar gitStatus wtRemove prune dbUpdate =
      (.error ("workspace has uncommitted changes; commit or stash before archiving, or pass --force: " ++ ws.path),
       [Effect.sidecarArchive, Effect.gitCall statusArgs]) ∧
    (∀ sql, Effect.dbWrite sql ∉
      (workspace_archive (.ok ws) false true archiveSidecar gitStatus wtRemove prune dbUpdate).2) ∧
    (∀ args, Effect.gitCall ("worktree" :: args) ∉
      (workspace_archive (.ok ws) false true archiveSidecar gitStatus wtRemove prune dbUpdate).2) := by
  have hmain : workspace_archive (.ok ws) false true archiveSidecar gitStatus wtRemove prune dbUpdate =
      (.error ("workspace has uncommitted changes; commit or stash before archiving, or pass --force: " ++ ws.path),
       [Effect.sidecarArchive, Effect.gitCall statusArgs]) := by
    unfold workspace_archive
    rw [hstatus]
    simp only [Bool.not_false, reduceIte]
    rw [if_pos hdirty]
    rfl
  refine ⟨hmain, ?_, ?_⟩
  · intro sql
    rw [hmain]
    simp
  · intro args
    rw [hmain]
    simp [statusArgs]

theorem archive_dirty_c4_witness :
    workspace_archive
      (.ok { id := "w1", path := "/ws/one", base_branch := "main", repo_root := "/repo" })
      false true (.ok ()) (.ok "?? a.txt") (.ok "") (.ok "") (.ok ()) =
      (.error ("workspace has uncommitted changes; commit or stash before archiving, or pass --force: " ++ "/ws/one"),
       [Effect.sidecarArchive, Effect.gitCall statusArgs]) :=
  (archive_dirty_c4 { id := "w1", path := "/ws/one", base_branch := "main", repo_root := "/repo" }
    (.ok ()) (.ok "?? a.txt") (.ok "") (.ok "") (.ok ()) "?? a.txt" rfl (by decide)).1

/-! ## C5: repository / workspace reference resolution -/

theorem get_repo_c5_counterexample :
    get_repo [{ id := "abc1", name := "proj", root_path := "/p",
                default_branch := "main", remote_url := none }] "a%1" =
      .ok { id := "abc1", name := "proj", root_path := "/p",
            default_branch := "main", remote_url := none } ∧
    "a%1" ≠ "abc1" ∧ "a%1" ≠ "proj" ∧
    ("a%1".toList.isPrefixOf "abc1".toList) = false := by
  refine ⟨rfl, by decide, by decide, by decide⟩

theorem likeMatchList_no_wildcard (ref : List Char) :
    ∀ s : List Char, ref.all (fun c => !(c = '%' || c = '_')) = true →
      likeMatchList (ref ++ ['%']) s = asciiPrefixMatch ref s := by
  induction ref with
  | nil =>
    intro s _
    have hmem : ([] : List Char) ∈ s.tails := by
      rw [List.mem_tails]
      exact List.nil_suffix
    have : s.tails.any (fun t => likeMatchList [] t) = true :=
      List.any_eq_true.mpr ⟨[], hmem, rfl⟩
    simp [likeMatchList, asciiPrefixMatch, this]
  | cons c ref ih =>
    intro s h
    have hc : ¬(c = '%') ∧ ¬(c = '_') := by
      have := List.all_eq_true.mp h c (List.mem_cons_self c ref)
      constructor <;> (intro hcc; simp [hcc] at this)
    have hrest : ref.all (fun x => !(x = '%' || x = '_')) = true := by
      rw [List.all_eq_true] at h ⊢
      exact fun x hx => h x (List.mem_cons_of_mem c hx)
    cases s with
    | nil => simp [likeMatchList, asciiPrefixMatch, hc.1]
    | cons a s' =>
      simp only [List.cons_append, likeMatchList, asciiPrefixMatch,
        if_neg hc.1, if_neg hc.2, List.append_eq]
      rw [ih s' hrest]

/-- C5 (amended): repository lookup succeeds on exact id, else exact
name, else a unique match of the SQLite pattern `id LIKE '<ref>%'`
(ASCII-case-insensitive, with `%` and `_` in the reference acting as
wildcards — which coincides with a case-insensitive id-prefix match
exactly when the reference has no wildcard characters); workspace lookup
is the same without the name step; several pattern matches fail with
`ambiguous …`, none with `… not found`. -/
theorem reference_lookup_c5 :
    (∀ (repos : List RepoRow) (ref : String) (r : RepoRow),
      repos.find? (fun x => x.id == ref) = some r → get_repo repos ref = .ok r) ∧
    (∀ (repos : List RepoRow) (ref : String) (r : RepoRow),
      repos.find? (fun x => x.id == ref) = none →
      repos.find? (fun x => x.name == ref) = some r → get_repo repos ref = .ok r) ∧
    (∀ (repos : List RepoRow) (ref : String) (r : RepoRow),
      repos.find? (fun x => x.id == ref) = none →
      repos.find? (fun x => x.name == ref) = none →
      repos.filter (fun x => likeMatch (ref ++ "%") x.id) = [r] →
      get_repo repos ref = .ok r) ∧
    (∀ (repos : List RepoRow) (ref : String),
      repos.find? (fun x => x.id == ref) = none →
      repos.find? (fun x => x.name == ref) = none →
      repos.filter (fun x => likeMatch (ref ++ "%") x.id) = [] →
      get_repo repos ref = .error ("repo not found: " ++ ref)) ∧
    (∀ (repos : List RepoRow) (ref : String),
      repos.find? (fun x => x.id == ref) = none →
      repos.find? (fun x => x.name == ref) = none →
      2 ≤ (repos.filter (fun x => likeMatch (ref ++ "%") x.id)).length →
      get_repo repos ref = .error ("ambiguous repo reference: " ++ ref)) ∧
    (∀ (workspaces : List WsRow) (ref : String) (w : WsRow),
      workspaces.find? (fun x => x.id == ref) = some w →
      get_workspace workspaces ref = .ok w) ∧
    (∀ (workspaces : List WsRow) (ref : String) (w : WsRow),
      workspaces.find? (fun x => x.id == ref) = none →
      workspaces.filter (fun x => likeMatch (ref ++ "%") x.id) = [w] →
      get_workspace workspaces ref = .ok w) ∧
    (∀ (workspaces : List WsRow) (ref : String),
      workspaces.find? (fun x => x.id == ref) = none →
      workspaces.filter (fun x => likeMatch (ref ++ "%") x.id) = [] →
      get_workspace workspaces ref = .error ("workspace not found: " ++ ref)) ∧
    (∀ (workspaces : List WsRow) (ref : String),
      workspaces.find? (fun x => x.id == ref) = none →
      2 ≤ (workspaces.filter (fun x => likeMatch (ref ++ "%") x.id)).length →
      get_workspace workspaces ref = .error ("ambiguous workspace reference: " ++ ref)) ∧
    (∀ ref s : String, ref.toList.all (fun c => !(c = '%' || c = '_')) = true →
      likeMatch (ref ++ "%") s = asciiPrefixMatch ref.toList s.toList) := by
  refine ⟨?_, ?_, ?_, ?_, ?_, ?_, ?_, ?_, ?_, ?_⟩
  · intro repos ref r h
    unfold get_repo
    rw [h]
  · intro repos ref r h1 h2
    unfold get_repo
    rw [h1, h2]
  · intro repos ref r h1 h2 h3
    unfold get_repo
    rw [h1, h2, h3]
  · intro repos ref h1 h2 h3
    unfold get_repo
    rw [h1, h2, h3]
  · intro repos ref h1 h2 h3
    unfold get_repo
    rw [h1, h2]
    rcases hf : repos.filter (fun x => likeMatch (ref ++ "%") x.id) with _ | ⟨x, _ | ⟨y, rest⟩⟩
    · rw [hf] at h3; simp at h3
    · rw [hf] at h3; simp at h3
    · rw [hf]
  · intro workspaces ref w h
    unfold get_workspace
    rw [h]
  · intro workspaces ref w h1 h2
    unfold get_workspace
    rw [h1, h2]
  · intro workspaces ref h1 h2
    unfold get_workspace
    rw [h1, h2]
  · intro workspaces ref h1 h2
    unfold get_workspace
    rw [h1]
    rcases hf : workspaces.filter (fun x => likeMatch (ref ++ "%") x.id) with _ | ⟨x, _ | ⟨y, rest⟩⟩
    · rw [hf] at h2; simp at h2
    · rw [hf] at h2; simp at h2
    · rw [hf]
  · intro ref s h
    unfold likeMatch
    rw [show (ref ++ "%").toList = ref.toList ++ ['%'] by
      show (ref ++ "%").data = ref.data ++ ['%']
      rw [String.data_append]]
    exact likeMatchList_no_wildcard ref.toList s.toList h

theorem reference_lookup_c5_witness :
    get_repo [{ id := "abc1", name := "proj", root_path := "/p",
                default_branch := "main", remote_url := none }] "abc1" =
      .ok { id := "abc1", name := "proj", root_path := "/p",
            default_branch := "main", remote_url := none } :=
  reference_lookup_c5.1
    [{ id := "abc1", name := "proj", root_path := "/p",
       default_branch := "main", remote_url := none }] "abc1"
    { id := "abc1", name := "proj", root_path := "/p",
      default_branch := "main", remote_url := none } rfl

/-! ## C6: TodoWrite summaries -/

theorem claude_todo_loop_spec (todos : List Json) :
    ∀ (p ip c : Nat) (cur : Option String),
      claude_todo_loop todos p ip c cur =
        (p + todos.countP todoCountsPending,
         ip + todos.countP (fun t => todoHasStatus t "in_progress"),
         c + todos.countP (fun t => todoHasStatus t "completed"),
         cur.orElse (fun _ => firstTodoTask todos)) := by
  induction todos with
  | nil =>
    intro p ip c cur
    simp only [claude_todo_loop, List.countP_nil, Nat.add_zero]
    cases cur <;> rfl
  | cons t rest ih =>
    intro p ip c cur
    unfold claude_todo_loop
    cases ht : t.asObj? with
    | none =>
      have h2 : todoHasStatus t "in_progress" = false := by simp [todoHasStatus, ht]
      have c1 : List.countP todoCountsPending (t :: rest) =
          List.countP todoCountsPending rest := by
        simp [List.countP_cons, todoCountsPending, ht]
      have c2 : List.countP (fun x => todoHasStatus x "in_progress") (t :: rest) =
          List.countP (fun x => todoHasStatus x "in_progress") rest := by
        simp [List.countP_cons, h2]
      have c3 : List.countP (fun x => todoHasStatus x "completed") (t :: rest) =
          List.countP (fun x => todoHasStatus x "completed") rest := by
        simp [List.countP_cons, todoHasStatus, ht]
      have h4 : firstTodoTask (t :: rest) = firstTodoTask rest := by
        unfold firstTodoTask
        rw [List.filterMap_cons]
        simp [h2]
      rw [ih, h4, c1, c2, c3]
    | some obj =>
      dsimp only
      have hstat : ∀ s : String, todoHasStatus t s =
          ((((lookupKey obj "status").bind Json.asStr?).getD "pending") == s) := by
        intro s
        simp [todoHasStatus, ht]
      by_cases hs1 : ((lookupKey obj "status").bind Json.asStr?).getD "pending" = "completed"
      · rw [if_pos hs1, ih]
        have hcomp : todoHasStatus t "completed" = true := by
          rw [hstat]; simp [hs1]
        have hip : todoHasStatus t "in_progress" = false := by
          rw [hstat]; simp [hs1]
        have hpend : todoCountsPending t = false := by
          simp [todoCountsPending, hcomp]
        have c1 : List.countP todoCountsPending (t :: rest) =
            List.countP todoCountsPending rest := by
          simp [List.countP_cons, hpend]
        have c2 : List.countP (fun x => todoHasStatus x "in_progress") (t :: rest) =
            List.countP (fun x => todoHasStatus x "in_progress") rest := by
          simp [List.countP_cons, hip]
        have c3 : List.countP (fun x => todoHasStatus x "completed") (t :: rest) =
            List.countP (fun x => todoHasStatus x "completed") rest + 1 := by
          simp [List.countP_cons, hcomp]
        have h4 : firstTodoTask (t :: rest) = firstTodoTask rest := by
          unfold firstTodoTask
          rw [List.filterMap_cons]
          simp [hip]
        rw [h4, c1, c2, c3,
          show c + 1 + List.countP (fun x => todoHasStatus x "completed") rest =
            c + (List.countP (fun x => todoHasStatus x "completed") rest + 1) from by omega]
      · by_cases hs2 : ((lookupKey obj "status").bind Json.asStr?).getD "pending" = "in_progress"
        · rw [if_neg hs1, if_pos hs2]
          have hcomp : todoHasStatus t "completed" = false := by
            rw [hstat]; simp [hs2]
          have hip : todoHasStatus t "in_progress" = true := by
            rw [hstat]; simp [hs2]
          have hpend : todoCountsPending t = false := by
            simp [todoCountsPending, hip]
          have htask : (((lookupKey obj "activeForm").orElse
              (fun _ => lookupKey obj "content")).bind Json.asStr?) = todoTask t := by
            simp [todoTask, ht]
          have c1 : List.countP todoCountsPending (t :: rest) =
              List.countP todoCountsPending rest := by
            simp [List.countP_cons, hpend]
          have c2 : List.countP (fun x => todoHasStatus x "in_progress") (t :: rest) =
              List.countP (fun x => todoHasStatus x "in_progress") rest + 1 := by
            simp [List.countP_cons, hip]
          have c3 : List.countP (fun x => todoHasStatus x "completed") (t :: rest) =
              List.countP (fun x => todoHasStatus x "completed") rest := by
            simp [List.countP_cons, hcomp]
          have h4 : firstTodoTask (t :: rest) =
              (todoTask t).orElse (fun _ => firstTodoTask rest) := by
            unfold firstTodoTask
            rw [List.filterMap_cons]
            simp only [hip, if_pos]
            cases todoTask t <;> simp
          cases cur with
          | some x =>
            rw [ih, h4, c1, c2, c3,
              show ip + 1 + List.countP (fun x => todoHasStatus x "in_progress") rest =
                ip + (List.countP (fun x => todoHasStatus x "in_progress") rest + 1) from by omega]
            rfl
          | none =>
            rw [ih, h4, c1, c2, c3,
              show ip + 1 + List.countP (fun x => todoHasStatus x "in_progress") rest =
                ip + (List.countP (fun x => todoHasStatus x "in_progress") rest + 1) from by omega,
              htask]
            rfl
        · rw [if_neg hs1, if_neg hs2, ih]
          have hcomp : todoHasStatus t "completed" = false := by
            rw [hstat]; simp [hs1]
          have hip : todoHasStatus t "in_progress" = false := by
            rw [hstat]; simp [hs2]
          have hpend : todoCountsPending t = true := by
            simp [todoCountsPending, ht, hstat, hs1, hs2]
          have c1 : List.countP todoCountsPending (t :: rest) =
              List.countP todoCountsPending rest + 1 := by
            simp [List.countP_cons, hpend]
          have c2 : List.countP (fun x => todoHasStatus x "in_progress") (t :: rest) =
              List.countP (fun x => todoHasStatus x "in_progress") rest := by
            simp [List.countP_cons, hip]
          have c3 : List.countP (fun x => todoHasStatus x "completed") (t :: rest) =
              List.countP (fun x => todoHasStatus x "completed") rest := by
            simp [List.countP_cons, hcomp]
          have h4 : firstTodoTask (t :: rest) = firstTodoTask rest := by
            unfold firstTodoTask
            rw [List.filterMap_cons]
            simp [hip]
          rw [h4, c1, c2, c3,
            show p + 1 + List.countP todoCountsPending rest =
              p + (List.countP todoCountsPending rest + 1) from by omega]

theorem todoHasStatus_eval (t : Json) (obj : List (String × Json))
    (ht : t.asObj? = some obj) (s : String) :
    todoHasStatus t s =
      (((lookupKey obj "status").bind Json.asStr?).getD "pending" == s) := by
  simp [todoHasStatus, ht]

theorem todoHasStatus_obj (t : Json) (s : String) (h : todoHasStatus t s = true) :
    ∃ fields, t = Json.obj fields := by
  cases t <;> simp [todoHasStatus, Json.asObj?] at h
  exact ⟨_, rfl⟩

theorem firstTodoTask_cons_neg (t : Json) (rest : List Json)
    (hp : todoHasStatus t "in_progress" = false) :
    firstTodoTask (t :: rest) = firstTodoTask rest := by
  unfold firstTodoTask
  rw [List.filterMap_cons]
  simp [hp]

theorem firstTodoTask_of_find (todos : List Json) (t0 : Json) (act : String)
    (hfind : todos.find? (fun t => todoHasStatus t "in_progress") = some t0)
    (hact : t0.get? "activeForm" = some (.str act)) :
    firstTodoTask todos = some act := by
  induction todos with
  | nil => simp at hfind
  | cons t rest ih =>
    by_cases hp : todoHasStatus t "in_progress" = true
    · rw [@List.find?_cons_of_pos _ (fun t => todoHasStatus t "in_progress") t rest hp] at hfind
      have ht0 : t = t0 := by simpa using hfind
      subst ht0
      obtain ⟨fields, rfl⟩ := todoHasStatus_obj t "in_progress" hp
      have htt : todoTask (Json.obj fields) = some act := by
        unfold todoTask
        simp only [Json.asObj?]
        rw [show lookupKey fields "activeForm" = some (.str act) from hact]
        rfl
      unfold firstTodoTask
      rw [List.filterMap_cons]
      simp only [hp, if_pos, htt]
      rfl
    · have hp' : todoHasStatus t "in_progress" = false := by
        cases hb : todoHasStatus t "in_progress"
        · rfl
        · exact absurd hb hp
      rw [@List.find?_cons_of_neg _ (fun t => todoHasStatus t "in_progress") t rest hp] at hfind
      rw [firstTodoTask_cons_neg t rest hp']
      exact ih hfind

theorem firstTodoTask_none (todos : List Json)
    (h : todos.countP (fun t => todoHasStatus t "in_progress") = 0) :
    firstTodoTask todos = none := by
  induction todos with
  | nil => rfl
  | cons t rest ih =>
    rw [List.countP_cons] at h
    cases hb : todoHasStatus t "in_progress" with
    | true => rw [hb] at h; simp at h
    | false =>
      rw [hb] at h
      rw [firstTodoTask_cons_neg t rest hb]
      exact ih (by omega)

theorem todo_counts_partition (todos : List Json) :
    todos.countP todoCountsPending +
      todos.countP (fun t => todoHasStatus t "in_progress") +
      todos.countP (fun t => todoHasStatus t "completed") =
      todos.countP (fun t => t.asObj?.isSome) := by
  induction todos with
  | nil => rfl
  | cons t rest ih =>
    simp only [List.countP_cons]
    cases ht : t.asObj? with
    | none =>
      have h1 : todoCountsPending t = false := by simp [todoCountsPending, ht]
      have h2 : todoHasStatus t "in_progress" = false := by simp [todoHasStatus, ht]
      have h3 : todoHasStatus t "completed" = false := by simp [todoHasStatus, ht]
      simp [h1, h2, h3, ht]
      omega
    | some obj =>
      by_cases hs1 : ((lookupKey obj "status").bind Json.asStr?).getD "pending" = "completed"
      · have hcomp : todoHasStatus t "completed" = true := by
          rw [todoHasStatus_eval t obj ht]; simp [hs1]
        have hip : todoHasStatus t "in_progress" = false := by
          rw [todoHasStatus_eval t obj ht]; simp [hs1]
        have hpend : todoCountsPending t = false := by
          simp [todoCountsPending, hcomp]
        simp [hcomp, hip, hpend, ht]
        omega
      · by_cases hs2 : ((lookupKey obj "status").bind Json.asStr?).getD "pending" = "in_progress"
        · have hcomp : todoHasStatus t "completed" = false := by
            rw [todoHasStatus_eval t obj ht]; simp [hs2]
          have hip : todoHasStatus t "in_progress" = true := by
            rw [todoHasStatus_eval t obj ht]; simp [hs2]
          have hpend : todoCountsPending t = false := by
            simp [todoCountsPending, hip]
          simp [hcomp, hip, hpend, ht]
          omega
        · have hcomp : todoHasStatus t "completed" = false := by
            rw [todoHasStatus_eval t obj ht]; simp [hs1]
          have hip : todoHasStatus t "in_progress" = false := by
            rw [todoHasStatus_eval t obj ht]; simp [hs2]
          have hpend : todoCountsPending t = true := by
            simp [todoCountsPending, ht, todoHasStatus_eval t obj ht, hs1, hs2]
          simp [hcomp, hip, hpend, ht]
          omega

theorem parse_claude_todos_eval (tool_input : List (String × Json)) (todos : List Json)
    (h : lookupKey tool_input "todos" = some (.arr todos)) :
    parse_claude_todos tool_input =
      (match firstTodoTask todos with
       | some task =>
         "todo " ++ toString (todos.countP (fun t => todoHasStatus t "completed")) ++ "/" ++
           toString (todos.countP todoCountsPending +
             todos.countP (fun t => todoHasStatus t "in_progress") +
             todos.countP (fun t => todoHasStatus t "completed")) ++ ": " ++ task
       | none =>
         if todos.countP (fun t => todoHasStatus t "completed") =
              todos.countP todoCountsPending +
                todos.countP (fun t => todoHasStatus t "in_progress") +
                todos.countP (fun t => todoHasStatus t "completed") ∧
            0 < todos.countP todoCountsPending +
                todos.countP (fun t => todoHasStatus t "in_progress") +
                todos.countP (fun t => todoHasStatus t "completed") then
           "todo " ++ toString (todos.countP (fun t => todoHasStatus t "completed")) ++ "/" ++
             toString (todos.countP todoCountsPending +
               todos.countP (fun t => todoHasStatus t "in_progress") +
               todos.countP (fun t => todoHasStatus t "completed")) ++ ": done"
         else
           "todo " ++ toString (todos.countP (fun t => todoHasStatus t "completed")) ++ "/" ++
             toString (todos.countP todoCountsPending +
               todos.countP (fun t => todoHasStatus t "in_progress") +
               todos.countP (fun t => todoHasStatus t "completed")),
       match firstTodoTask todos with
       | some task =>
         [("pending", .num (todos.countP todoCountsPending)),
          ("in_progress", .num (todos.countP (fun t => todoHasStatus t "in_progress"))),
          ("completed", .num (todos.countP (fun t => todoHasStatus t "completed"))),
          ("total", .num ((todos.countP todoCountsPending +
            todos.countP (fun t => todoHasStatus t "in_progress") +
            todos.countP (fun t => todoHasStatus t "completed") : Nat))),
          ("todos", .arr todos), ("current_task", .str task)]
       | none =>
         [("pending", .num (todos.countP todoCountsPending)),
          ("in_progress", .num (todos.countP (fun t => todoHasStatus t "in_progress"))),
          ("completed", .num (todos.countP (fun t => todoHasStatus t "completed"))),
          ("total", .num ((todos.countP todoCountsPending +
            todos.countP (fun t => todoHasStatus t "in_progress") +
            todos.countP (fun t => todoHasStatus t "completed") : Nat))),
          ("todos", .arr todos)]) := by
  unfold parse_claude_todos
  rw [h]
  simp only [Option.some_bind, Json.asArr?]
  rw [claude_todo_loop_spec todos 0 0 0 none]
  dsimp only
  simp only [Nat.zero_add]
  cases hcur : firstTodoTask todos <;> rfl

/-- C6: for a TodoWrite input, the recorded counts satisfy
`pending + in_progress + completed = total` (each todo object counted
once by its status, unknown statuses counted as pending, non-object
entries skipped); when the first in-progress todo has a string
`activeForm`, the title is `todo <completed>/<total>: <activeForm>`;
when all todo objects are complete (and at least one exists) the title
is the done form; the started action carries exactly this title and
detail. -/
theorem todo_counts_c6 (tool_input : List (String × Json)) (todos : List Json)
    (h : lookupKey tool_input "todos" = some (.arr todos)) :
    lookupKey (parse_claude_todos tool_input).2 "pending" =
      some (.num (todos.countP todoCountsPending)) ∧
    lookupKey (parse_claude_todos tool_input).2 "in_progress" =
      some (.num (todos.countP (fun t => todoHasStatus t "in_progress"))) ∧
    lookupKey (parse_claude_todos tool_input).2 "completed" =
      some (.num (todos.countP (fun t => todoHasStatus t "completed"))) ∧
    lookupKey (parse_claude_todos tool_input).2 "total" =
      some (.num ((todos.countP todoCountsPending +
        todos.countP (fun t => todoHasStatus t "in_progress") +
        todos.countP (fun t => todoHasStatus t "completed") : Nat))) ∧
    todos.countP todoCountsPending +
        todos.countP (fun t => todoHasStatus t "in_progress") +
        todos.countP (fun t => todoHasStatus t "completed") =
      todos.countP (fun t => t.asObj?.isSome) ∧
    (∀ t0 act, todos.find? (fun t => todoHasStatus t "in_progress") = some t0 →
      t0.get? "activeForm" = some (.str act) →
      (parse_claude_todos tool_input).1 =
        "todo " ++ toString (todos.countP (fun t => todoHasStatus t "completed")) ++ "/" ++
          toString (todos.countP todoCountsPending +
            todos.countP (fun t => todoHasStatus t "in_progress") +
            todos.countP (fun t => todoHasStatus t "completed")) ++ ": " ++ act) ∧
    (todos.countP todoCountsPending = 0 →
      todos.countP (fun t => todoHasStatus t "in_progress") = 0 →
      0 < todos.countP (fun t => todoHasStatus t "completed") →
      (parse_claude_todos tool_input).1 =
        "todo " ++ toString (todos.countP (fun t => todoHasStatus t "completed")) ++ "/" ++
          toString (todos.countP (fun t => todoHasStatus t "completed")) ++ ": done") ∧
    (∀ (p : AgentParser) (tid : String),
      (parse_value p (mkAssistant [mkTodoWriteBlock tid tool_input])).1 =
        some [action_event "claude" "started"
          (action_map tid "todo" (parse_claude_todos tool_input).1
            (parse_claude_todos tool_input).2) none none none]) := by
  have heval := parse_claude_todos_eval tool_input todos h
  refine ⟨?_, ?_, ?_, ?_, todo_counts_partition todos, ?_, ?_, ?_⟩
  · rw [heval]; cases firstTodoTask todos <;> rfl
  · rw [heval]; cases firstTodoTask todos <;> rfl
  · rw [heval]; cases firstTodoTask todos <;> rfl
  · rw [heval]; cases firstTodoTask todos <;> rfl
  · intro t0 act hfind hact
    rw [heval, firstTodoTask_of_find todos t0 act hfind hact]
  · intro h1 h2 h3
    rw [heval, firstTodoTask_none todos h2, h1, h2]
    simp only [Nat.zero_add, eq_self_iff_true, true_and]
    rw [if_pos h3]
  · intro p tid
    rfl

theorem todo_counts_c6_witness :
    (parse_claude_todos
      [("todos", Json.arr
        [Json.obj [("status", Json.str "completed")],
         Json.obj [("status", Json.str "in_progress"), ("activeForm", Json.str "Running tests")],
         Json.obj [("status", Json.str "pending")]])]).1 =
      "todo " ++ toString 1 ++ "/" ++ toString 3 ++ ": " ++ "Running tests" := by
  have := (todo_counts_c6
    [("todos", Json.arr
      [Json.obj [("status", Json.str "completed")],
       Json.obj [("status", Json.str "in_progress"), ("activeForm", Json.str "Running tests")],
       Json.obj [("status", Json.str "pending")]])]
    [Json.obj [("status", Json.str "completed")],
     Json.obj [("status", Json.str "in_progress"), ("activeForm", Json.str "Running tests")],
     Json.obj [("status", Json.str "pending")]]
    rfl).2.2.2.2.2.1
    (Json.obj [("status", Json.str "in_progress"), ("activeForm", Json.str "Running tests")])
    "Running tests" rfl rfl
  exact this

/-! ## Pending-map helper lemmas -/

theorem any_key_filter_mono (m : List (String × Json)) (f : String × Json → Bool)
    (k : String) (h : (m.filter f).any (fun kv => kv.1 == k) = true) :
    m.any (fun kv => kv.1 == k) = true := by
  obtain ⟨kv, hmem, hk⟩ := List.any_eq_true.mp h
  exact List.any_eq_true.mpr ⟨kv, List.mem_of_mem_filter hmem, hk⟩

theorem pendingHas_jinsert_elim (m : List (String × Json)) (k' : String) (v : Json)
    (k : String) (h : (jinsert m k' v).any (fun kv => kv.1 == k) = true) :
    m.any (fun kv => kv.1 == k) = true ∨ k = k' := by
  obtain ⟨kv, hmem, hk⟩ := List.any_eq_true.mp h
  rcases mem_jinsert hmem with hm | hkv
  · exact Or.inl (List.any_eq_true.mpr ⟨kv, hm, hk⟩)
  · right
    rw [hkv] at hk
    exact (beq_iff_eq.mp hk).symm

theorem pendingHas_jinsert_mono (m : List (String × Json)) (k' : String) (v : Json)
    (k : String) (h : m.any (fun kv => kv.1 == k) = true) :
    (jinsert m k' v).any (fun kv => kv.1 == k) = true := by
  obtain ⟨kv, hmem, hk⟩ := List.any_eq_true.mp h
  by_cases hkk : kv.1 = k'
  · apply List.any_eq_true.mpr
    refine ⟨(k', v), ?_, ?_⟩
    · unfold jinsert
      split
      · exact List.mem_map.mpr ⟨kv, hmem, by simp [hkk]⟩
      · exact List.mem_append.mpr (Or.inr (by simp))
    · show (k' == k) = true
      rw [← hkk]
      exact hk
  · apply List.any_eq_true.mpr
    refine ⟨kv, ?_, hk⟩
    unfold jinsert
    split
    · exact List.mem_map.mpr ⟨kv, hmem, by simp [hkk]⟩
    · exact List.mem_append.mpr (Or.inl hmem)

theorem key_erased (m : List (String × Json)) (k' k : String)
    (hbefore : m.any (fun kv => kv.1 == k) = true)
    (hafter : (m.filter (fun kv => kv.1 != k')).any (fun kv => kv.1 == k) = false) :
    k = k' := by
  obtain ⟨kv, hmem, hk⟩ := List.any_eq_true.mp hbefore
  by_cases hkk : kv.1 = k'
  · exact ((beq_iff_eq.mp hk).symm.trans hkk)
  · exfalso
    have hmem' : kv ∈ m.filter (fun kv => kv.1 != k') :=
      List.mem_filter.mpr ⟨hmem, by simp [hkk]⟩
    have hcontra : (m.filter (fun kv => kv.1 != k')).any (fun kv => kv.1 == k) = true :=
      List.any_eq_true.mpr ⟨kv, hmem', hk⟩
    rw [hafter] at hcontra
    exact absurd hcontra (by simp)

theorem boolContra {x : Bool} (h1 : x = true) (h2 : x = false) : False := by
  rw [h1] at h2
  exact Bool.noConfusion h2

theorem claude_block_pending (b : Json) (s : ClaudeState) (k : String) :
    (pendingHas ((claude_block b s).2.2) k = true →
      pendingHas s k = true ∨ isToolUseBlock b k = true) ∧
    (pendingHas s k = true → pendingHas ((claude_block b s).2.2) k = false →
      isToolResultBlock b k = true) ∧
    s.note_seq ≤ ((claude_block b s).2.2).note_seq := by
  unfold claude_block
  by_cases h1 : (value_str b "type").getD "" = "tool_use"
  · rw [if_pos h1]
    cases hid : value_str b "id" with
    | none =>
      exact ⟨fun h => Or.inl h, fun h h' => (boolContra h h').elim, Nat.le_refl _⟩
    | some tool_id =>
      dsimp only
      split
      · refine ⟨?_, ?_, Nat.le_refl _⟩
        · intro h
          rcases pendingHas_jinsert_elim s.pending tool_id _ k h with hh | hh
          · exact Or.inl hh
          · right
            simp [isToolUseBlock, blockType, h1, hid, hh]
        · intro h h'
          exact (boolContra (pendingHas_jinsert_mono s.pending tool_id _ k h) h').elim
      · refine ⟨?_, ?_, Nat.le_refl _⟩
        · intro h
          rcases pendingHas_jinsert_elim s.pending tool_id _ k h with hh | hh
          · exact Or.inl hh
          · right
            simp [isToolUseBlock, blockType, h1, hid, hh]
        · intro h h'
          exact (boolContra (pendingHas_jinsert_mono s.pending tool_id _ k h) h').elim
  · rw [if_neg h1]
    by_cases h2 : (value_str b "type").getD "" = "tool_result"
    · rw [if_pos h2]
      cases htuid : value_str b "tool_use_id" with
      | none =>
        exact ⟨fun h => Or.inl h, fun h h' => (boolContra h h').elim, Nat.le_refl _⟩
      | some tuid =>
        dsimp only
        split
        · refine ⟨?_, ?_, Nat.le_refl _⟩
          · intro h
            exact Or.inl (any_key_filter_mono s.pending _ k h)
          · intro h h'
            have hk := key_erased s.pending tuid k h h'
            simp [isToolResultBlock, blockType, h2, htuid, hk]
        · refine ⟨?_, ?_, Nat.le_refl _⟩
          · intro h
            exact Or.inl (any_key_filter_mono s.pending _ k h)
          · intro h h'
            have hk := key_erased s.pending tuid k h h'
            simp [isToolResultBlock, blockType, h2, htuid, hk]
    · rw [if_neg h2]
      by_cases h3 : (value_str b "type").getD "" = "thinking"
      · rw [if_pos h3]
        cases hth : value_str b "thinking" with
        | none =>
          exact ⟨fun h => Or.inl h, fun h h' => (boolContra h h').elim, Nat.le_refl _⟩
        | some thinking =>
          exact ⟨fun h => Or.inl h, fun h h' => (boolContra h h').elim, Nat.le_succ _⟩
      · rw [if_neg h3]
        by_cases h4 : (value_str b "type").getD "" = "text"
        · rw [if_pos h4]
          cases hx : value_str b "text" with
          | none =>
            exact ⟨fun h => Or.inl h, fun h h' => (boolContra h h').elim, Nat.le_refl _⟩
          | some text =>
            exact ⟨fun h => Or.inl h, fun h h' => (boolContra h h').elim, Nat.le_refl _⟩
        · rw [if_neg h4]
          exact ⟨fun h => Or.inl h, fun h h' => (boolContra h h').elim, Nat.le_refl _⟩

theorem claude_blocks_cons (b : Json) (rest : List Json) (s : ClaudeState) :
    claude_blocks (b :: rest) s =
      ((claude_block b s).1 ++ (claude_blocks rest (claude_block b s).2.2).1,
       (claude_block b s).2.1 ++ (claude_blocks rest (claude_block b s).2.2).2.1,
       (claude_blocks rest (claude_block b s).2.2).2.2) := rfl

theorem claude_blocks_pending (blocks : List Json) :
    ∀ (s : ClaudeState) (k : String),
      (pendingHas ((claude_blocks blocks s).2.2) k = true →
        pendingHas s k = true ∨ blocks.any (fun b => isToolUseBlock b k) = true) ∧
      (pendingHas s k = true → pendingHas ((claude_blocks blocks s).2.2) k = false →
        blocks.any (fun b => isToolResultBlock b k) = true) ∧
      s.note_seq ≤ ((claude_blocks blocks s).2.2).note_seq := by
  induction blocks with
  | nil =>
    intro s k
    exact ⟨fun h => Or.inl h, fun h h' => (boolContra h h').elim, Nat.le_refl _⟩
  | cons b rest ih =>
    intro s k
    rw [claude_blocks_cons]
    have hb := claude_block_pending b s k
    have hr := ih ((claude_block b s).2.2) k
    refine ⟨?_, ?_, Nat.le_trans hb.2.2 hr.2.2⟩
    · intro h
      rcases hr.1 h with hh | hh
      · rcases hb.1 hh with hhh | hhh
        · exact Or.inl hhh
        · exact Or.inr (by simp [List.any_cons, hhh])
      · exact Or.inr (by simp [List.any_cons, hh])
    · intro h h'
      by_cases hmid : pendingHas ((claude_block b s).2.2) k = true
      · have := hr.2.1 hmid h'
        simp [List.any_cons, this]
      · have hmid' : pendingHas ((claude_block b s).2.2) k = false := by
          cases hx : pendingHas ((claude_block b s).2.2) k
          · rfl
          · exact absurd hx hmid
        have := hb.2.1 h hmid'
        simp [List.any_cons, this]

theorem blocksOf_assistant (v : Json) (message : List (String × Json)) (content : List Json)
    (htype : value_str v "type" = some "assistant")
    (hmsg : (v.get? "message").bind Json.asObj? = some message)
    (hcontent : (lookupKey message "content").bind Json.asArr? = some content) :
    blocksOf v = content := by
  unfold blocksOf
  rw [show isType v "assistant" = true by simp [isType, htype], if_pos rfl, hmsg]
  dsimp only
  rw [hcontent]

theorem parse_claude_event_pending (v : Json) (s : ClaudeState) (k : String) :
    (pendingHas ((parse_claude_event v s).2) k = true →
      pendingHas s k = true ∨ hasToolUse v k = true) ∧
    (pendingHas s k = true → pendingHas ((parse_claude_event v s).2) k = false →
      hasToolResult v k = true) ∧
    s.note_seq ≤ ((parse_claude_event v s).2).note_seq := by
  unfold parse_claude_event
  cases htype : value_str v "type" with
  | none =>
    exact ⟨fun h => Or.inl h, fun h h' => (boolContra h h').elim, Nat.le_refl _⟩
  | some et =>
    dsimp only
    by_cases h1 : et = "system"
    · rw [if_pos h1]
      by_cases h2 : value_str v "subtype" ≠ some "init"
      · rw [if_pos h2]
        exact ⟨fun h => Or.inl h, fun h h' => (boolContra h h').elim, Nat.le_refl _⟩
      · rw [if_neg h2]
        cases hsid : value_str v "session_id" with
        | none =>
          exact ⟨fun h => Or.inl h, fun h h' => (boolContra h h').elim, Nat.le_refl _⟩
        | some sid =>
          exact ⟨fun h => Or.inl h, fun h h' => (boolContra h h').elim, Nat.le_refl _⟩
    · rw [if_neg h1]
      by_cases h2 : et = "assistant"
      · rw [if_pos h2]
        cases hmsg : (v.get? "message").bind Json.asObj? with
        | none =>
          exact ⟨fun h => Or.inl h, fun h h' => (boolContra h h').elim, Nat.le_refl _⟩
        | some message =>
          dsimp only
          cases hcontent : (lookupKey message "content").bind Json.asArr? with
          | none =>
            exact ⟨fun h => Or.inl h, fun h h' => (boolContra h h').elim, Nat.le_refl _⟩
          | some content =>
            subst h2
            have hblocks : blocksOf v = content := blocksOf_assistant v message content htype hmsg hcontent
            have hcb := claude_blocks_pending content s k
            dsimp only
            refine ⟨?_, ?_, ?_⟩
            · intro h
              rcases hcb.1 h with hh | hh
              · exact Or.inl hh
              · right
                unfold hasToolUse
                rw [hblocks]
                exact hh
            · intro h h'
              have := hcb.2.1 h h'
              unfold hasToolResult
              rw [hblocks]
              exact this
            · exact hcb.2.2
      · rw [if_neg h2]
        by_cases h3 : et = "result"
        · rw [if_pos h3]
          exact ⟨fun h => Or.inl h, fun h h' => (boolContra h h').elim, Nat.le_refl _⟩
        · rw [if_neg h3]
          exact ⟨fun h => Or.inl h, fun h h' => (boolContra h h').elim, Nat.le_refl _⟩

/-- C7: across parser steps, the Claude pending map gains a key only
when the input carries a `tool_use` block with that id and loses a key
only when the input carries a `tool_result` block with that
tool-use id; the Codex `turn_index` and both engines' `note_seq`
counters never decrease over any input sequence. -/
theorem parser_state_invariants_c7 :
    (∀ (p : AgentParser) (v : Json) (k : String),
      (pendingHas ((parse_value p v).2).claude k = true →
        pendingHas p.claude k = true ∨ hasToolUse v k = true) ∧
      (pendingHas p.claude k = true → pendingHas ((parse_value p v).2).claude k = false →
        hasToolResult v k = true)) ∧
    (∀ (p : AgentParser) (vs : List Json),
      p.codex.turn_index ≤ ((runState p vs).codex).turn_index ∧
      p.codex.note_seq ≤ ((runState p vs).codex).note_seq ∧
      p.claude.note_seq ≤ ((runState p vs).claude).note_seq) := by
  constructor
  · intro p v k
    rw [parse_value_claude]
    cases hc : (parse_codex_event v p.codex).1 with
    | some evs =>
      exact ⟨fun h => Or.inl h, fun h h' => (boolContra h h').elim⟩
    | none =>
      have hp := parse_claude_event_pending v p.claude k
      exact ⟨hp.1, hp.2.1⟩
  · intro p vs
    induction vs generalizing p with
    | nil => exact ⟨Nat.le_refl _, Nat.le_refl _, Nat.le_refl _⟩
    | cons v rest ih =>
      rw [runState_cons]
      have h1 : p.codex.turn_index ≤ ((parse_value p v).2).codex.turn_index := by
        rw [parse_value_codex, parse_codex_event_state]
        exact Nat.le_add_right _ _
      have h2 : p.codex.note_seq ≤ ((parse_value p v).2).codex.note_seq := by
        rw [parse_value_codex, parse_codex_event_state]
        exact Nat.le_add_right _ _
      have h3 : p.claude.note_seq ≤ ((parse_value p v).2).claude.note_seq := by
        rw [parse_value_claude]
        cases hc : (parse_codex_event v p.codex).1 with
        | some evs => exact Nat.le_refl _
        | none => exact (parse_claude_event_pending v p.claude "").2.2
      have hrest := ih ((parse_value p v).2)
      exact ⟨Nat.le_trans h1 hrest.1, Nat.le_trans h2 hrest.2.1, Nat.le_trans h3 hrest.2.2⟩

theorem parser_state_invariants_c7_witness :
    pendingHas AgentParser.new.claude "u1" = true ∨
      hasToolUse (mkAssistant [Json.obj [("type", Json.str "tool_use"), ("id", Json.str "u1"),
        ("name", Json.str "Bash"), ("input", Json.obj [])]]) "u1" = true :=
  (parser_state_invariants_c7.1 AgentParser.new
    (mkAssistant [Json.obj [("type", Json.str "tool_use"), ("id", Json.str "u1"),
      ("name", Json.str "Bash"), ("input", Json.obj [])]]) "u1").1 rfl

/-! ## Event classification lemmas for the Claude stream -/

theorem strField_action_map_id (i k t : String) (d : List (String × Json)) (u : String) :
    strField (action_map i k t d) "id" u = (i == u) := by
  unfold strField
  rw [action_map_get_id]

theorem isActionWith_action_event (e ph : String) (a : Json) (ok : Option Bool)
    (m l : Option String) (phase u : String) :
    isActionWith (action_event e ph a ok m l) phase u = ((ph == phase) && strField a "id" u) := by
  unfold isActionWith actionIdIs strField
  rw [action_event_get_type, action_event_get_phase, action_event_get_action]
  simp

theorem isActionWith_started_event (e r : String) (title : Option String) (meta : Option Json)
    (phase u : String) :
    isActionWith (started_event e r title meta) phase u = false := by
  unfold isActionWith strField
  rw [started_event_get_type]
  simp

theorem isActionWith_message_event (e t : String) (phase u : String) :
    isActionWith (message_event e t) phase u = false := by
  unfold isActionWith strField
  rw [message_event_get_type]
  simp

theorem isActionWith_completed_event (e : String) (ok : Bool) (ans : String)
    (r err : Option String) (usage : Option Json) (phase u : String) :
    isActionWith (completed_event e ok ans r err usage) phase u = false := by
  unfold isActionWith strField
  rw [completed_event_get_type]
  simp

theorem startedCount_append (l1 l2 : List Json) (u : String) :
    startedCount (l1 ++ l2) u = startedCount l1 u + startedCount l2 u := by
  unfold startedCount
  rw [List.filter_append, List.length_append]

theorem completedCount_append (l1 l2 : List Json) (u : String) :
    completedCount (l1 ++ l2) u = completedCount l1 u + completedCount l2 u := by
  unfold completedCount
  rw [List.filter_append, List.length_append]

theorem startedCount_singleton (e : Json) (u : String) :
    startedCount [e] u = if isActionWith e "started" u then 1 else 0 := by
  unfold startedCount
  rw [List.filter_singleton]
  cases hc : isActionWith e "started" u <;> simp [hc]

theorem completedCount_singleton (e : Json) (u : String) :
    completedCount [e] u = if isActionWith e "completed" u then 1 else 0 := by
  unfold completedCount
  rw [List.filter_singleton]
  cases hc : isActionWith e "completed" u <;> simp [hc]

theorem some_beq_some (a b : String) : ((some a : Option String) == some b) = (a == b) := rfl

theorem isToolUseBlock_false_of_type (b : Json) (u : String)
    (h : ¬ (value_str b "type").getD "" = "tool_use") : isToolUseBlock b u = false := by
  unfold isToolUseBlock blockType
  simp [h]

theorem isToolResultBlock_false_of_type (b : Json) (u : String)
    (h : ¬ (value_str b "type").getD "" = "tool_result") : isToolResultBlock b u = false := by
  unfold isToolResultBlock blockType
  simp [h]

theorem isToolUseBlock_eval (b : Json) (u tid : String)
    (h1 : (value_str b "type").getD "" = "tool_use")
    (hid : value_str b "id" = some tid) : isToolUseBlock b u = (tid == u) := by
  unfold isToolUseBlock blockType
  rw [h1, hid, some_beq_some]
  simp

theorem isToolUseBlock_false_of_no_id (b : Json) (u : String)
    (hid : value_str b "id" = none) : isToolUseBlock b u = false := by
  unfold isToolUseBlock
  rw [hid]
  simp [show ((none : Option String) == some u) = false from rfl]

theorem isToolResultBlock_eval (b : Json) (u tid : String)
    (h1 : (value_str b "type").getD "" = "tool_result")
    (hid : value_str b "tool_use_id" = some tid) : isToolResultBlock b u = (tid == u) := by
  unfold isToolResultBlock blockType
  rw [h1, hid, some_beq_some]
  simp

theorem isToolResultBlock_false_of_no_id (b : Json) (u : String)
    (hid : value_str b "tool_use_id" = none) : isToolResultBlock b u = false := by
  unfold isToolResultBlock
  rw [hid]
  simp [show ((none : Option String) == some u) = false from rfl]

theorem claude_block_events (b : Json) (s : ClaudeState) (u : String)
    (hinv : pendingInv s) (hU : ∀ n : Nat, u ≠ "claude.note." ++ toString n) :
    pendingInv ((claude_block b s).2.2) ∧
    startedCount ((claude_block b s).1) u = (if isToolUseBlock b u then 1 else 0) ∧
    completedCount ((claude_block b s).1) u = (if isToolResultBlock b u then 1 else 0) ∧
    (∀ e ∈ (claude_block b s).1, isActionWith e "completed" u = true →
      isToolResultBlock b u = true ∧ e.get? "ok" = some (.bool (!(blockIsError b)))) := by
  unfold claude_block
  by_cases h1 : (value_str b "type").getD "" = "tool_use"
  · rw [if_pos h1]
    cases hid : value_str b "id" with
    | none =>
      refine ⟨hinv, ?_, ?_, ?_⟩
      · rw [isToolUseBlock_false_of_no_id b u hid]
        rfl
      · rw [isToolResultBlock_false_of_type b u (by rw [h1]; decide)]
        rfl
      · intro e he
        exact absurd he (by simp)
    | some tool_id =>
      dsimp only
      split
      · refine ⟨?_, ?_, ?_, ?_⟩
        · intro kv hkv
          rcases mem_jinsert hkv with hm | hnew
          · exact hinv kv hm
          · rw [hnew]
            exact ⟨_, rfl, action_map_get_id _ _ _ _⟩
        · rw [startedCount_singleton, isActionWith_action_event, strField_action_map_id,
            isToolUseBlock_eval b u tool_id h1 hid]
          simp
        · rw [completedCount_singleton, isActionWith_action_event, strField_action_map_id,
            isToolResultBlock_false_of_type b u (by rw [h1]; decide)]
          simp
        · intro e he hact
          rw [List.mem_singleton] at he
          subst he
          rw [isActionWith_action_event, strField_action_map_id] at hact
          simp at hact
      · refine ⟨?_, ?_, ?_, ?_⟩
        · intro kv hkv
          rcases mem_jinsert hkv with hm | hnew
          · exact hinv kv hm
          · rw [hnew]
            exact ⟨_, rfl, action_map_get_id _ _ _ _⟩
        · rw [startedCount_singleton, isActionWith_action_event, strField_action_map_id,
            isToolUseBlock_eval b u tool_id h1 hid]
          simp
        · rw [completedCount_singleton, isActionWith_action_event, strField_action_map_id,
            isToolResultBlock_false_of_type b u (by rw [h1]; decide)]
          simp
        · intro e he hact
          rw [List.mem_singleton] at he
          subst he
          rw [isActionWith_action_event, strField_action_map_id] at hact
          simp at hact
  · rw [if_neg h1]
    by_cases h2 : (value_str b "type").getD "" = "tool_result"
    · rw [if_pos h2]
      cases htuid : value_str b "tool_use_id" with
      | none =>
        refine ⟨hinv, ?_, ?_, ?_⟩
        · rw [isToolUseBlock_false_of_type b u h1]
          rfl
        · rw [isToolResultBlock_false_of_no_id b u htuid]
          rfl
        · intro e he
          exact absurd he (by simp)
      | some tuid =>
        dsimp only
        split
        · rename_i action_obj heq
          have hobj_id : lookupKey action_obj "id" = some (.str tuid) := by
            cases hf : s.pending.find? (fun kv => kv.1 == tuid) with
            | none =>
              have h1' : (pendingRemove s.pending tuid).1 = none := by
                unfold pendingRemove
                rw [hf]
                rfl
              rw [h1'] at heq
              have hchain : action_map tuid "tool" "tool" [] = Json.obj action_obj := heq
              have hgid : (Json.obj action_obj).get? "id" = some (.str tuid) := by
                rw [← hchain]
                exact action_map_get_id _ _ _ _
              exact hgid
            | some kv =>
              have h1' : (pendingRemove s.pending tuid).1 = some kv.2 := by
                unfold pendingRemove
                rw [hf]
                rfl
              rw [h1'] at heq
              simp only [Option.getD_some] at heq
              obtain ⟨fields, hfe, hfid⟩ := hinv kv (List.mem_of_find?_eq_some hf)
              have hka := @List.find?_some _ (fun kv : String × Json => kv.1 == tuid)
                kv s.pending hf
              have hk : kv.1 = tuid := beq_iff_eq.mp hka
              rw [hfe] at heq
              injection heq with hfa
              rw [← hfa, ← hk]
              exact hfid
          have hsf : ∀ X, strField (Json.obj (jinsert action_obj "detail" X)) "id" u =
              (tuid == u) := by
            intro X
            unfold strField
            rw [get_obj_eq_lookupKey, lookup_jinsert_ne action_obj "detail" "id" X (by decide),
              hobj_id]
          refine ⟨?_, ?_, ?_, ?_⟩
          · intro kv hkv
            have hkv' : kv ∈ s.pending.filter (fun kv => kv.1 != tuid) := hkv
            exact hinv kv (List.mem_of_mem_filter hkv')
          · rw [startedCount_singleton, isActionWith_action_event, hsf,
              isToolUseBlock_false_of_type b u h1]
            simp
          · rw [completedCount_singleton, isActionWith_action_event, hsf,
              isToolResultBlock_eval b u tuid h2 htuid]
            simp
          · intro e he hact
            rw [List.mem_singleton] at he
            subst he
            rw [isActionWith_action_event, hsf] at hact
            simp at hact
            refine ⟨?_, ?_⟩
            · rw [isToolResultBlock_eval b u tuid h2 htuid]
              simp [hact]
            · rw [action_event_get_ok]
              rfl
        · rename_i hne
          exfalso
          cases hf : s.pending.find? (fun kv => kv.1 == tuid) with
          | none =>
            have h1' : (pendingRemove s.pending tuid).1 = none := by
              unfold pendingRemove
              rw [hf]
              rfl
            exact hne (jinsert (jinsert (jinsert (jinsert [] "id" (.str tuid)) "kind"
              (.str "tool")) "title" (.str "tool")) "detail" (.obj [])) (by rw [h1']; rfl)
          | some kv =>
            have h1' : (pendingRemove s.pending tuid).1 = some kv.2 := by
              unfold pendingRemove
              rw [hf]
              rfl
            obtain ⟨fields, hfe, _⟩ := hinv kv (List.mem_of_find?_eq_some hf)
            exact hne fields (by rw [h1']; simpa using hfe)
    · rw [if_neg h2]
      by_cases h3 : (value_str b "type").getD "" = "thinking"
      · rw [if_pos h3]
        cases hth : value_str b "thinking" with
        | none =>
          refine ⟨hinv, ?_, ?_, ?_⟩
          · rw [isToolUseBlock_false_of_type b u h1]
            rfl
          · rw [isToolResultBlock_false_of_type b u h2]
            rfl
          · intro e he
            exact absurd he (by simp)
        | some thinking =>
          have hnot : (("claude.note." ++ toString (s.note_seq + 1)) == u) = false :=
            beq_eq_false_iff_ne.mpr (fun hc => hU (s.note_seq + 1) hc.symm)
          refine ⟨hinv, ?_, ?_, ?_⟩
          · rw [startedCount_singleton, isActionWith_action_event, strField_action_map_id,
              isToolUseBlock_false_of_type b u h1]
            simp
          · rw [completedCount_singleton, isActionWith_action_event, strField_action_map_id,
              hnot, isToolResultBlock_false_of_type b u h2]
            simp
          · intro e he hact
            rw [List.mem_singleton] at he
            subst he
            rw [isActionWith_action_event, strField_action_map_id, hnot] at hact
            simp at hact
      · rw [if_neg h3]
        by_cases h4 : (value_str b "type").getD "" = "text"
        · rw [if_pos h4]
          cases hx : value_str b "text" with
          | none =>
            refine ⟨hinv, ?_, ?_, ?_⟩
            · rw [isToolUseBlock_false_of_type b u h1]
              rfl
            · rw [isToolResultBlock_false_of_type b u h2]
              rfl
            · intro e he
              exact absurd he (by simp)
          | some text =>
            refine ⟨hinv, ?_, ?_, ?_⟩
            · rw [isToolUseBlock_false_of_type b u h1]
              rfl
            · rw [isToolResultBlock_false_of_type b u h2]
              rfl
            · intro e he
              exact absurd he (by simp)
        · rw [if_neg h4]
          refine ⟨hinv, ?_, ?_, ?_⟩
          · rw [isToolUseBlock_false_of_type b u h1]
            rfl
          · rw [isToolResultBlock_false_of_type b u h2]
            rfl
          · intro e he
            exact absurd he (by simp)

theorem claude_blocks_events (blocks : List Json) :
    ∀ (s : ClaudeState) (u : String), pendingInv s →
      (∀ n : Nat, u ≠ "claude.note." ++ toString n) →
      pendingInv ((claude_blocks blocks s).2.2) ∧
      startedCount ((claude_blocks blocks s).1) u =
        (blocks.filter (fun b => isToolUseBlock b u)).length ∧
      completedCount ((claude_blocks blocks s).1) u =
        (blocks.filter (fun b => isToolResultBlock b u)).length ∧
      (∀ e ∈ (claude_blocks blocks s).1, isActionWith e "completed" u = true →
        ∃ b, b ∈ blocks ∧ isToolResultBlock b u = true ∧
          e.get? "ok" = some (.bool (!(blockIsError b)))) := by
  induction blocks with
  | nil =>
    intro s u hinv hU
    refine ⟨hinv, rfl, rfl, ?_⟩
    intro e he
    simp only [claude_blocks] at he
    exact absurd he (List.not_mem_nil e)
  | cons b rest ih =>
    intro s u hinv hU
    rw [claude_blocks_cons]
    obtain ⟨hinvb, hsb, hcb, hob⟩ := claude_block_events b s u hinv hU
    obtain ⟨hinvr, hsr, hcr, hor⟩ := ih ((claude_block b s).2.2) u hinvb hU
    refine ⟨hinvr, ?_, ?_, ?_⟩
    · dsimp only
      rw [startedCount_append, hsb, hsr, List.filter_cons]
      cases hc : isToolUseBlock b u <;> simp [hc, Nat.add_comm]
    · dsimp only
      rw [completedCount_append, hcb, hcr, List.filter_cons]
      cases hc : isToolResultBlock b u <;> simp [hc, Nat.add_comm]
    · dsimp only
      intro e he hact
      rw [List.mem_append] at he
      rcases he with h | h
      · obtain ⟨hres, hok⟩ := hob e h hact
        exact ⟨b, List.mem_cons_self b rest, hres, hok⟩
      · obtain ⟨b', hb'mem, hres, hok⟩ := hor e h hact
        exact ⟨b', List.mem_cons_of_mem b hb'mem, hres, hok⟩

theorem parse_codex_event_claudeType (v : Json) (s : CodexState)
    (h : isClaudeType v = true) : parse_codex_event v s = (none, s) := by
  unfold isClaudeType isType at h
  unfold parse_codex_event
  cases htype : value_str v "type" with
  | none => rfl
  | some et =>
    rw [htype] at h
    simp only [Bool.or_eq_true, beq_iff_eq, Option.some.injEq] at h
    dsimp only
    rcases h with (h | h) | h <;> subst h <;> rfl

theorem blocksOf_not_assistant (v : Json) (h : isType v "assistant" = false) :
    blocksOf v = [] := by
  unfold blocksOf
  rw [h]
  rfl

theorem parse_claude_event_events (v : Json) (s : ClaudeState) (u : String)
    (hinv : pendingInv s) (hU : ∀ n : Nat, u ≠ "claude.note." ++ toString n) :
    pendingInv ((parse_claude_event v s).2) ∧
    startedCount (((parse_claude_event v s).1).getD []) u =
      ((blocksOf v).filter (fun b => isToolUseBlock b u)).length ∧
    completedCount (((parse_claude_event v s).1).getD []) u =
      ((blocksOf v).filter (fun b => isToolResultBlock b u)).length ∧
    (∀ e ∈ ((parse_claude_event v s).1).getD [], isActionWith e "completed" u = true →
      ∃ b, b ∈ blocksOf v ∧ isToolResultBlock b u = true ∧
        e.get? "ok" = some (.bool (!(blockIsError b)))) := by
  unfold parse_claude_event
  cases htype : value_str v "type" with
  | none =>
    have hb : blocksOf v = [] := blocksOf_not_assistant v (by unfold isType; rw [htype]; rfl)
    rw [hb]
    exact ⟨hinv, rfl, rfl, fun e he => absurd he (by simp)⟩
  | some et =>
    dsimp only
    by_cases h1 : et = "system"
    · subst h1
      rw [if_pos rfl]
      have hb : blocksOf v = [] :=
        blocksOf_not_assistant v (by unfold isType; rw [htype]; decide)
      rw [hb]
      split
      · exact ⟨hinv, rfl, rfl, fun e he => absurd he (by simp)⟩
      · cases hsid : value_str v "session_id" with
        | none => exact ⟨hinv, rfl, rfl, fun e he => absurd he (by simp)⟩
        | some sid =>
          dsimp only
          refine ⟨hinv, ?_, ?_, ?_⟩
          · rw [Option.getD_some, startedCount_singleton, isActionWith_started_event]
            simp
          · rw [Option.getD_some, completedCount_singleton, isActionWith_started_event]
            simp
          · intro e he hact
            rw [Option.getD_some, List.mem_singleton] at he
            subst he
            rw [isActionWith_started_event] at hact
            exact absurd hact (by simp)
    · rw [if_neg h1]
      by_cases h2 : et = "assistant"
      · subst h2
        rw [if_pos rfl]
        cases hmsg : (v.get? "message").bind Json.asObj? with
        | none =>
          have hb : blocksOf v = [] := by
            unfold blocksOf
            rw [show isType v "assistant" = true by simp [isType, htype], if_pos rfl, hmsg]
          rw [hb]
          exact ⟨hinv, rfl, rfl, fun e he => absurd he (by simp)⟩
        | some message =>
          dsimp only
          cases hcontent : (lookupKey message "content").bind Json.asArr? with
          | none =>
            have hb : blocksOf v = [] := by
              unfold blocksOf
              rw [show isType v "assistant" = true by simp [isType, htype], if_pos rfl, hmsg]
              dsimp only
              rw [hcontent]
            rw [hb]
            exact ⟨hinv, rfl, rfl, fun e he => absurd he (by simp)⟩
          | some content =>
            have hb : blocksOf v = content :=
              blocksOf_assistant v message content htype hmsg hcontent
            dsimp only
            rw [hb]
            obtain ⟨hinvr, hsr, hcr, hor⟩ := claude_blocks_events content s u hinv hU
            refine ⟨hinvr, ?_, ?_, ?_⟩
            · rw [Option.getD_some]
              split
              · exact hsr
              · rw [startedCount_append, hsr, startedCount_singleton,
                  isActionWith_message_event]
                simp
            · rw [Option.getD_some]
              split
              · exact hcr
              · rw [completedCount_append, hcr, completedCount_singleton,
                  isActionWith_message_event]
                simp
            · rw [Option.getD_some]
              intro e he hact
              split at he
              · exact hor e he hact
              · rw [List.mem_append] at he
                rcases he with h | h
                · exact hor e h hact
                · rw [List.mem_singleton] at h
                  subst h
                  rw [isActionWith_message_event] at hact
                  exact absurd hact (by simp)
      · rw [if_neg h2]
        by_cases h3 : et = "result"
        · subst h3
          rw [if_pos rfl]
          have hb : blocksOf v = [] :=
            blocksOf_not_assistant v (by unfold isType; rw [htype]; decide)
          dsimp only
          rw [hb]
          refine ⟨hinv, ?_, ?_, ?_⟩
          · rw [Option.getD_some, startedCount_singleton, isActionWith_completed_event]
            simp
          · rw [Option.getD_some, completedCount_singleton, isActionWith_completed_event]
            simp
          · intro e he hact
            rw [Option.getD_some, List.mem_singleton] at he
            subst he
            rw [isActionWith_completed_event] at hact
            exact absurd hact (by simp)
        · rw [if_neg h3]
          have hb : blocksOf v = [] :=
            blocksOf_not_assistant v (by
              unfold isType
              rw [htype]
              exact beq_eq_false_iff_ne.mpr (fun hc => h2 (Option.some.inj hc)))
          rw [hb]
          exact ⟨hinv, rfl, rfl, fun e he => absurd he (by simp)⟩

theorem parse_value_of_claudeType (p : AgentParser) (v : Json) (hc : isClaudeType v = true) :
    parse_value p v = ((parse_claude_event v p.claude).1,
      { codex := p.codex, claude := (parse_claude_event v p.claude).2 }) := by
  unfold parse_value
  rw [parse_codex_event_claudeType v p.codex hc]

theorem parse_value_events (p : AgentParser) (v : Json) (u : String)
    (hc : isClaudeType v = true) (hinv : pendingInv p.claude)
    (hU : ∀ n : Nat, u ≠ "claude.note." ++ toString n) :
    pendingInv ((parse_value p v).2).claude ∧
    startedCount (eventsOf p v) u =
      ((blocksOf v).filter (fun b => isToolUseBlock b u)).length ∧
    completedCount (eventsOf p v) u =
      ((blocksOf v).filter (fun b => isToolResultBlock b u)).length ∧
    (∀ e ∈ eventsOf p v, isActionWith e "completed" u = true →
      ∃ b, b ∈ blocksOf v ∧ isToolResultBlock b u = true ∧
        e.get? "ok" = some (.bool (!(blockIsError b)))) := by
  unfold eventsOf
  rw [parse_value_of_claudeType p v hc]
  dsimp only
  exact parse_claude_event_events v p.claude u hinv hU

theorem allBlocks_cons (v : Json) (vs : List Json) :
    allBlocks (v :: vs) = blocksOf v ++ allBlocks vs := by
  unfold allBlocks
  rw [List.map_cons, List.flatten_cons]

theorem runEvents_events (vs : List Json) :
    ∀ (p : AgentParser) (u : String), vs.all isClaudeType = true → pendingInv p.claude →
      (∀ n : Nat, u ≠ "claude.note." ++ toString n) →
      pendingInv ((runState p vs).claude) ∧
      startedCount (runEvents p vs) u =
        ((allBlocks vs).filter (fun b => isToolUseBlock b u)).length ∧
      completedCount (runEvents p vs) u =
        ((allBlocks vs).filter (fun b => isToolResultBlock b u)).length ∧
      (∀ e ∈ runEvents p vs, isActionWith e "completed" u = true →
        ∃ b, b ∈ allBlocks vs ∧ isToolResultBlock b u = true ∧
          e.get? "ok" = some (.bool (!(blockIsError b)))) := by
  induction vs with
  | nil =>
    intro p u hall hinv hU
    refine ⟨hinv, rfl, rfl, ?_⟩
    intro e he
    exact absurd he (List.not_mem_nil e)
  | cons v rest ih =>
    intro p u hall hinv hU
    rw [List.all_cons, Bool.and_eq_true] at hall
    obtain ⟨hcv, hcrest⟩ := hall
    obtain ⟨hinv1, hs1, hc1, ho1⟩ := parse_value_events p v u hcv hinv hU
    obtain ⟨hinvr, hsr, hcr, hor⟩ := ih (parse_value p v).2 u hcrest hinv1 hU
    rw [show runEvents p (v :: rest) =
        eventsOf p v ++ runEvents (parse_value p v).2 rest from rfl, allBlocks_cons]
    refine ⟨hinvr, ?_, ?_, ?_⟩
    · rw [startedCount_append, hs1, hsr, List.filter_append, List.length_append]
    · rw [completedCount_append, hc1, hcr, List.filter_append, List.length_append]
    · intro e he hact
      rw [List.mem_append] at he
      rcases he with h | h
      · obtain ⟨b, hb, hrb, hok⟩ := ho1 e h hact
        exact ⟨b, List.mem_append_left _ hb, hrb, hok⟩
      · obtain ⟨b, hb, hrb, hok⟩ := hor e h hact
        exact ⟨b, List.mem_append_right _ hb, hrb, hok⟩

theorem claude_block_unmatched_result (b : Json) (s : ClaudeState) (tuid : String)
    (hfind : s.pending.find? (fun kv => kv.1 == tuid) = none)
    (htype : (value_str b "type").getD "" = "tool_result")
    (htid : value_str b "tool_use_id" = some tuid) :
    ∃ a detail,
      claude_block b s =
        ([action_event "claude" "completed" (Json.obj a) (some (!(blockIsError b))) none none],
         [], { s with pending := s.pending.filter (fun kv => kv.1 != tuid) }) ∧
      lookupKey a "id" = some (.str tuid) ∧
      lookupKey a "kind" = some (.str "tool") ∧
      lookupKey a "title" = some (.str "tool") ∧
      lookupKey a "detail" = some (.obj detail) := by
  unfold claude_block pendingRemove
  rw [if_neg (by rw [htype]; decide), if_pos htype, htid]
  dsimp only
  rw [hfind]
  simp only [Option.map_none', Option.getD_none, action_map]
  exact ⟨_, _, rfl, rfl, rfl, rfl, rfl⟩

/-- C2: over any all-Claude input sequence in which exactly one `tool_use`
block has id `u` and exactly one `tool_result` block (`b0`) answers it,
the fresh parser emits exactly one `agent.action` started event and
exactly one completed event whose action id is `u`, and every such
completed event's `ok` is the negation of `b0`'s `is_error` flag;
moreover a `tool_result` whose `tool_use_id` matches nothing pending
still yields one completed event around a fabricated minimal action with
that id (kind and title `tool`). -/
theorem tool_pairs_c2 (vs : List Json) (u : String) (b0 : Json)
    (hclaude : vs.all isClaudeType = true)
    (hU : ∀ n : Nat, u ≠ "claude.note." ++ toString n)
    (huse : ((allBlocks vs).filter (fun b => isToolUseBlock b u)).length = 1)
    (hres : (allBlocks vs).filter (fun b => isToolResultBlock b u) = [b0]) :
    startedCount (runEvents AgentParser.new vs) u = 1 ∧
    completedCount (runEvents AgentParser.new vs) u = 1 ∧
    (∀ e ∈ runEvents AgentParser.new vs, isActionWith e "completed" u = true →
      e.get? "ok" = some (.bool (!(blockIsError b0)))) ∧
    (∀ (p : AgentParser) (tuid : String) (b : Json),
      pendingHas p.claude tuid = false →
      (value_str b "type").getD "" = "tool_result" →
      value_str b "tool_use_id" = some tuid →
      ∃ a detail,
        (parse_value p (mkAssistant [b])).1 =
          some [action_event "claude" "completed" (Json.obj a)
            (some (!(blockIsError b))) none none] ∧
        lookupKey a "id" = some (.str tuid) ∧
        lookupKey a "kind" = some (.str "tool") ∧
        lookupKey a "title" = some (.str "tool") ∧
        lookupKey a "detail" = some (.obj detail)) := by
  obtain ⟨hinvr, hs, hc, ho⟩ := runEvents_events vs AgentParser.new u hclaude
    (fun kv hkv => absurd hkv (List.not_mem_nil kv)) hU
  refine ⟨?_, ?_, ?_, ?_⟩
  · rw [hs, huse]
  · rw [hc, hres]
    rfl
  · intro e he hact
    obtain ⟨b, hb, hrb, hok⟩ := ho e he hact
    have hmem : b ∈ (allBlocks vs).filter (fun x => isToolResultBlock x u) :=
      List.mem_filter.mpr ⟨hb, hrb⟩
    rw [hres, List.mem_singleton] at hmem
    rw [hmem] at hok
    exact hok
  · intro p tuid b hpend htype htid
    have hfind : p.claude.pending.find? (fun kv => kv.1 == tuid) = none := by
      rw [List.find?_eq_none]
      intro x hx hpx
      exact boolContra (List.any_eq_true.mpr ⟨x, hx, hpx⟩) hpend
    obtain ⟨a, detail, heq, hid, hkind, htitle, hdetail⟩ :=
      claude_block_unmatched_result b p.claude tuid hfind htype htid
    refine ⟨a, detail, ?_, hid, hkind, htitle, hdetail⟩
    rw [parse_value_of_claudeType p (mkAssistant [b]) rfl]
    dsimp only
    unfold parse_claude_event
    rw [show value_str (mkAssistant [b]) "type" = some "assistant" from rfl]
    dsimp only
    rw [if_neg (by decide), if_pos rfl]
    rw [show (Json.get? (mkAssistant [b]) "message").bind Json.asObj? =
        some [("content", Json.arr [b])] from rfl]
    dsimp only
    rw [show (lookupKey [("content", Json.arr [b])] "content").bind Json.asArr? =
        some [b] from rfl]
    dsimp only
    rw [claude_blocks_cons, heq]
    rfl

theorem tool_pairs_c2_witness :
    startedCount (runEvents AgentParser.new
      [mkAssistant [Json.obj [("type", Json.str "tool_use"), ("id", Json.str "u1"),
          ("name", Json.str "Bash"), ("input", Json.obj [])]],
       mkAssistant [Json.obj [("type", Json.str "tool_result"),
          ("tool_use_id", Json.str "u1"), ("is_error", Json.bool false)]]]) "u1" = 1 ∧
    completedCount (runEvents AgentParser.new
      [mkAssistant [Json.obj [("type", Json.str "tool_use"), ("id", Json.str "u1"),
          ("name", Json.str "Bash"), ("input", Json.obj [])]],
       mkAssistant [Json.obj [("type", Json.str "tool_result"),
          ("tool_use_id", Json.str "u1"), ("is_error", Json.bool false)]]]) "u1" = 1 := by
  have h := tool_pairs_c2
    [mkAssistant [Json.obj [("type", Json.str "tool_use"), ("id", Json.str "u1"),
        ("name", Json.str "Bash"), ("input", Json.obj [])]],
     mkAssistant [Json.obj [("type", Json.str "tool_result"),
        ("tool_use_id", Json.str "u1"), ("is_error", Json.bool false)]]]
    "u1"
    (Json.obj [("type", Json.str "tool_result"),
      ("tool_use_id", Json.str "u1"), ("is_error", Json.bool false)])
    rfl
    (fun n hc => by
      have hl := congrArg String.length hc
      rw [String.length_append] at hl
      have h2 : ("u1" : String).length = 2 := rfl
      have h12 : ("claude.note." : String).length = 12 := rfl
      rw [h2, h12] at hl
      omega)
    rfl
    rfl
  exact ⟨h.1, h.2.1⟩
